import Mathlib

/-!
# TopoJSON feature generation (mapnik, plugins/input/topojson/topojson_featureset.cpp)

A shallow embedding of the geometry visitor `feature_generator` and of the data it reads.

* Coordinates are C++ `double`s.  The arithmetic is kept abstract: the embedding is
  polymorphic in a number type `α` that only provides `0`, `+` and `*`, and no law of
  arithmetic is used anywhere, so every statement holds for IEEE doubles as well as for
  exact numbers.  Concrete evaluations use `Int`.
* `topo_.arcs[i]` is `std::vector::operator[]`: an index outside `[0, size)` is undefined
  behaviour.  Functions that index the arcs return `Option`, `none` standing for such an
  undefined access (no result is defined).
* A feature is modelled by the calls the visitor makes on it: the id handed to the
  factory, the paths pushed, and the `put_new` calls in order.  A path (`geometry_type`)
  is modelled by the calls `move_to`, `line_to`, `close_path` made on it, in order.
-/

namespace Topojson

/-! ## Data model (mapnik/json/topology.hpp, as described by the data model of the spec) -/

/-- A coordinate pair `coordinate { double x; double y; }`. -/
structure coordinate (α : Type) where
  x : α
  y : α
deriving DecidableEq, Repr

/-- The optional `transform` of a topology. -/
structure transform (α : Type) where
  scale_x : α
  scale_y : α
  translate_x : α
  translate_y : α
deriving DecidableEq, Repr

/-- An arc: an ordered sequence of raw coordinates. -/
structure arc (α : Type) where
  coordinates : List (coordinate α)
deriving DecidableEq, Repr

/-- Ring references are signed integers (`index_type`); the declaration is in
topology.hpp, the embedding takes the mathematical integers (the overflow of `std::abs`
at the least value of a machine integer is not modelled). -/
abbrev index_type := Int

/-- A property value: a tagged scalar. -/
inductive value (α : Type) where
  | str (s : String)
  | dbl (d : α)
  | int (i : Int)
  | bool (b : Bool)
deriving DecidableEq, Repr

abbrev property (α : Type) := String × value α

abbrev properties (α : Type) := List (property α)

structure point (α : Type) where
  coord : coordinate α
  props : Option (properties α)

structure multi_point (α : Type) where
  points : List (coordinate α)
  props : Option (properties α)

structure linestring (α : Type) where
  ring : index_type
  props : Option (properties α)

structure multi_linestring (α : Type) where
  rings : List index_type
  props : Option (properties α)

structure polygon (α : Type) where
  rings : List (List index_type)
  props : Option (properties α)

structure multi_polygon (α : Type) where
  polygons : List (List (List index_type))
  props : Option (properties α)

/-- The geometry variant; `invalid` is the alternative none of the six visitors takes. -/
inductive geometry (α : Type) where
  | invalid
  | point (g : point α)
  | linestring (g : linestring α)
  | polygon (g : polygon α)
  | multi_point (g : multi_point α)
  | multi_linestring (g : multi_linestring α)
  | multi_polygon (g : multi_polygon α)

structure topology (α : Type) where
  geometries : List (geometry α)
  arcs : List (arc α)
  tr : Option (transform α)

/-! ## Output model -/

/-- One call made on a `geometry_type`. -/
inductive command (α : Type) where
  | move_to (x y : α)
  | line_to (x y : α)
  | close_path
deriving DecidableEq, Repr

inductive eGeomType where
  | Point
  | LineString
  | Polygon
deriving DecidableEq, Repr

/-- A path: the geometry type it was created with and the draw commands issued on it. -/
structure geometry_type (α : Type) where
  type_ : eGeomType
  cont : List (command α)
deriving DecidableEq, Repr

/-- A feature: its id, the paths pushed on `paths()`, the `put_new` calls in order. -/
structure feature_impl (α : Type) where
  id : Nat
  paths : List (geometry_type α)
  puts : List (String × value α)
deriving DecidableEq, Repr

/-- The vertex a command carries, if any. -/
def command.vertex {α : Type} : command α → Option (coordinate α)
  | .move_to x y => some ⟨x, y⟩
  | .line_to x y => some ⟨x, y⟩
  | .close_path => none

def command.is_move_to {α : Type} : command α → Bool
  | .move_to _ _ => true
  | _ => false

def command.is_line_to {α : Type} : command α → Bool
  | .line_to _ _ => true
  | _ => false

def command.is_close {α : Type} : command α → Bool
  | .close_path => true
  | _ => false

/-! ## Properties (lines 50-81) -/

/-- The text that `val.c_str()` hands to a function taking a C string: the characters of
`val` before its first NUL character, all of `val` when it has none. -/
def c_str (val : String) : String :=
  String.mk (val.data.takeWhile (fun c => c != Char.ofNat 0))

/-- The `attribute_value_visitor` (lines 50-69): for a string the transcoder is called on
`val.c_str()` (line 59), every other alternative is stored as it is. -/
def attribute_value_visitor {α : Type} (tr_ : String → String) : value α → value α
  | .str val => .str (tr_ (c_str val))
  | v => v

/-- The `put_new` calls `assign_properties` makes, in order. -/
def assign_properties {α : Type} (tr_ : String → String) (props : Option (properties α)) :
    List (String × value α) :=
  match props with
  | some ps => ps.map (fun p => (p.1, attribute_value_visitor tr_ p.2))
  | none => []

/-! ## Shared pieces of the visitors -/

/-- Access `topo_.arcs[arc_index]`: defined only for `0 ≤ arc_index < arcs.size()`. -/
def arcs_at {α : Type} (arcs : List (arc α)) (arc_index : index_type) : Option (arc α) :=
  if 0 ≤ arc_index then arcs[arc_index.toNat]? else none

/-- Lines 177-178, 217-218, 292-293:
`bool reverse = index < 0; index_type arc_index = reverse ? std::abs(index) - 1 : index;` -/
def resolve_ring (index : index_type) : Bool × index_type :=
  let reverse := decide (index < 0)
  (reverse, if reverse then |index| - 1 else index)

/-- The body that decodes one raw coordinate (lines 144-150, 181-187, 224-232, 299-306):
with a transform the running sum `(px, py)` is advanced and scaled, without one the raw
coordinate is taken as it is.  Returns the new running sum and the decoded coordinate. -/
def decode_step {α : Type} [Add α] [Mul α] (tr : Option (transform α)) (p : α × α)
    (pt : coordinate α) : (α × α) × coordinate α :=
  match tr with
  | some t =>
    let px := p.1 + pt.x
    let py := p.2 + pt.y
    ((px, py), ⟨px * t.scale_x + t.translate_x, py * t.scale_y + t.translate_y⟩)
  | none => (p, ⟨pt.x, pt.y⟩)

/-- State of the loop over an arc in the line visitors. -/
structure line_state (α : Type) where
  p : α × α
  first : Bool
  cont : List (command α)

/-- One iteration of the loop of lines 142-160 (the same loop is at lines 179-197). -/
def line_step {α : Type} [Add α] [Mul α] (tr : Option (transform α)) (s : line_state α)
    (pt : coordinate α) : line_state α :=
  let r := decode_step tr s.p pt
  if s.first then
    { p := r.1, first := false, cont := s.cont ++ [command.move_to r.2.x r.2.y] }
  else
    { p := r.1, first := s.first, cont := s.cont ++ [command.line_to r.2.x r.2.y] }

/-- The loop over the coordinates of one arc in the line visitors, from
`px = 0, py = 0, first = true` and an empty path. -/
def line_loop {α : Type} [Zero α] [Add α] [Mul α] (tr : Option (transform α))
    (coords : List (coordinate α)) : List (command α) :=
  (coords.foldl (line_step tr) { p := (0, 0), first := true, cont := [] }).cont

/-- One iteration of the loop filling `processed_coords` (lines 222-237, 297-311). -/
def process_step {α : Type} [Add α] [Mul α] (tr : Option (transform α))
    (s : (α × α) × List (coordinate α)) (pt : coordinate α) : (α × α) × List (coordinate α) :=
  let r := decode_step tr s.1 pt
  (r.1, s.2 ++ [r.2])

/-- The decoded coordinates of one arc: `processed_coords` after the loop, which starts
from `px = 0, py = 0` and the cleared vector. -/
def process_coords {α : Type} [Zero α] [Add α] [Mul α] (tr : Option (transform α))
    (coords : List (coordinate α)) : List (coordinate α) :=
  (coords.foldl (process_step tr) ((0, 0), [])).2

/-- The value of `v.size() - 1` in `std::size_t`: it wraps to `SIZE_MAX` for an empty
vector. -/
def size_minus_one (n : Nat) : Nat :=
  if n = 0 then 2 ^ 64 - 1 else n - 1

/-- The range adaptor `rng | sliced(t, u)`: requires `t ≤ u ≤ size(rng)`, else undefined. -/
def sliced {β : Type} (rng : List β) (t u : Nat) : Option (List β) :=
  if t ≤ u ∧ u ≤ rng.length then some ((rng.drop t).take (u - t)) else none

/-- State of the loops that emit a ring: the `first` flag and the path so far. -/
structure ring_state (α : Type) where
  first : Bool
  cont : List (command α)

/-- One iteration of the emitting loops (lines 250-255, 262-267, 319-324, 331-336). -/
def emit_step {α : Type} (s : ring_state α) (c : coordinate α) : ring_state α :=
  if s.first then
    { first := false, cont := s.cont ++ [command.move_to c.x c.y] }
  else
    { first := s.first, cont := s.cont ++ [command.line_to c.x c.y] }

/-! ## The visitors -/

/-- The visitor for `point` (lines 92-109). -/
def visit_point {α : Type} [Add α] [Mul α] (tr_ : String → String) (topo : topology α)
    (feature_id : Nat) (pt : point α) : feature_impl α :=
  let x := pt.coord.x
  let y := pt.coord.y
  let xy : α × α :=
    match topo.tr with
    | some t => (x * t.scale_x + t.translate_x, y * t.scale_y + t.translate_y)
    | none => (x, y)
  { id := feature_id,
    paths := [⟨eGeomType.Point, [command.move_to xy.1 xy.2]⟩],
    puts := assign_properties tr_ pt.props }

/-- The visitor for `multi_point` (lines 111-132): one path per point, each holding the
single command `move_to`; no running sum is kept. -/
def visit_multi_point {α : Type} [Add α] [Mul α] (tr_ : String → String) (topo : topology α)
    (feature_id : Nat) (multi_pt : multi_point α) : feature_impl α :=
  { id := feature_id,
    paths := multi_pt.points.map (fun pt =>
      let x := pt.x
      let y := pt.y
      let xy : α × α :=
        match topo.tr with
        | some t => (x * t.scale_x + t.translate_x, y * t.scale_y + t.translate_y)
        | none => (x, y)
      ⟨eGeomType.Point, [command.move_to xy.1 xy.2]⟩),
    puts := assign_properties tr_ multi_pt.props }

/-- The visitor for `linestring` (lines 134-165): `arc_index = line.ring` is used as it
is. -/
def visit_linestring {α : Type} [Zero α] [Add α] [Mul α] (tr_ : String → String)
    (topo : topology α) (feature_id : Nat) (line : linestring α) : Option (feature_impl α) :=
  let arc_index := line.ring
  match arcs_at topo.arcs arc_index with
  | none => none
  | some a =>
    some { id := feature_id,
           paths := [⟨eGeomType.LineString, line_loop topo.tr a.coordinates⟩],
           puts := assign_properties tr_ line.props }

/-- The body of the loop over `multi_line.rings` (lines 173-198): the path made for one
ring reference.  `reverse` is computed and not used afterwards. -/
def multi_linestring_member {α : Type} [Zero α] [Add α] [Mul α] (topo : topology α)
    (index : index_type) : Option (geometry_type α) :=
  let r := resolve_ring index
  let arc_index := r.2
  match arcs_at topo.arcs arc_index with
  | none => none
  | some a => some ⟨eGeomType.LineString, line_loop topo.tr a.coordinates⟩

/-- The visitor for `multi_linestring` (lines 167-202). -/
def visit_multi_linestring {α : Type} [Zero α] [Add α] [Mul α] (tr_ : String → String)
    (topo : topology α) (feature_id : Nat) (multi_line : multi_linestring α) :
    Option (feature_impl α) :=
  match multi_line.rings.mapM (multi_linestring_member topo) with
  | none => none
  | some ps =>
    some { id := feature_id, paths := ps, puts := assign_properties tr_ multi_line.props }

/-- The body of the loop over the references of one ring in the polygon visitor
(lines 216-269).  `simplify` stands for `boost::geometry::simplify(_, _, 2)`. -/
def polygon_arc {α : Type} [Zero α] [Add α] [Mul α]
    (simplify : List (coordinate α) → List (coordinate α)) (topo : topology α)
    (s : ring_state α) (index : index_type) : Option (ring_state α) :=
  let r := resolve_ring index
  let reverse := r.1
  let arc_index := r.2
  match arcs_at topo.arcs arc_index with
  | none => none
  | some a =>
    let processed_coords := process_coords topo.tr a.coordinates
    let simplified := simplify processed_coords
    if reverse then
      match sliced simplified.reverse 0 (size_minus_one simplified.length) with
      | none => none
      | some rng => some (rng.foldl emit_step s)
    else
      match sliced simplified 0 (size_minus_one simplified.length) with
      | none => none
      | some rng => some (rng.foldl emit_step s)

/-- The body of the loop over `poly.rings` (lines 211-271): the ring is emitted on the
polygon path `cont`, then `close_path` is called. -/
def polygon_ring {α : Type} [Zero α] [Add α] [Mul α]
    (simplify : List (coordinate α) → List (coordinate α)) (topo : topology α)
    (cont : List (command α)) (ring : List index_type) : Option (List (command α)) :=
  match ring.foldlM (polygon_arc simplify topo) { first := true, cont := cont } with
  | none => none
  | some s => some (s.cont ++ [command.close_path])

/-- The visitor for `polygon` (lines 204-277): one `geometry_type` is created before the
loop over the rings and pushed on the feature once, after it. -/
def visit_polygon {α : Type} [Zero α] [Add α] [Mul α]
    (simplify : List (coordinate α) → List (coordinate α)) (tr_ : String → String)
    (topo : topology α) (feature_id : Nat) (poly : polygon α) : Option (feature_impl α) :=
  match poly.rings.foldlM (polygon_ring simplify topo) [] with
  | none => none
  | some cont =>
    some { id := feature_id,
           paths := [⟨eGeomType.Polygon, cont⟩],
           puts := assign_properties tr_ poly.props }

/-- The body of the loop over the references of one ring in the multi-polygon visitor
(lines 291-338): the decoded coordinates are emitted directly. -/
def multi_polygon_arc {α : Type} [Zero α] [Add α] [Mul α] (topo : topology α)
    (s : ring_state α) (index : index_type) : Option (ring_state α) :=
  let r := resolve_ring index
  let reverse := r.1
  let arc_index := r.2
  match arcs_at topo.arcs arc_index with
  | none => none
  | some a =>
    let processed_coords := process_coords topo.tr a.coordinates
    if reverse then
      match sliced processed_coords.reverse 0 (size_minus_one processed_coords.length) with
      | none => none
      | some rng => some (rng.foldl emit_step s)
    else
      match sliced processed_coords 0 (size_minus_one processed_coords.length) with
      | none => none
      | some rng => some (rng.foldl emit_step s)

/-- The body of the loop over the rings of one polygon (lines 287-340). -/
def multi_polygon_ring {α : Type} [Zero α] [Add α] [Mul α] (topo : topology α)
    (cont : List (command α)) (ring : List index_type) : Option (List (command α)) :=
  match ring.foldlM (multi_polygon_arc topo) { first := true, cont := cont } with
  | none => none
  | some s => some (s.cont ++ [command.close_path])

/-- The body of the loop over `multi_poly.polygons` (lines 285-342): the path of one
polygon. -/
def multi_polygon_member {α : Type} [Zero α] [Add α] [Mul α] (topo : topology α)
    (poly : List (List index_type)) : Option (geometry_type α) :=
  match poly.foldlM (multi_polygon_ring topo) [] with
  | none => none
  | some cont => some ⟨eGeomType.Polygon, cont⟩

/-- The visitor for `multi_polygon` (lines 279-346). -/
def visit_multi_polygon {α : Type} [Zero α] [Add α] [Mul α] (tr_ : String → String)
    (topo : topology α) (feature_id : Nat) (multi_poly : multi_polygon α) :
    Option (feature_impl α) :=
  match multi_poly.polygons.mapM (multi_polygon_member topo) with
  | none => none
  | some ps =>
    some { id := feature_id, paths := ps, puts := assign_properties tr_ multi_poly.props }

/-! ## The visitor dispatch and the featureset (lines 348-391) -/

/-- A `feature_ptr`: `none` is the null pointer `feature_ptr()`. -/
abbrev feature_ptr (α : Type) := Option (feature_impl α)

/-- The application `boost::apply_visitor(feature_generator(ctx_, tr_, topo_, feature_id),
geom)`: the overload of the alternative held by the variant is called; every alternative
other than the six geometry kinds takes the template overload of lines 348-352, which
returns `feature_ptr()`.  The outer `Option` is `none` when the visit runs into an
undefined access. -/
def feature_generator {α : Type} [Zero α] [Add α] [Mul α]
    (simplify : List (coordinate α) → List (coordinate α)) (tr_ : String → String)
    (topo : topology α) (feature_id : Nat) : geometry α → Option (feature_ptr α)
  | .point g => some (some (visit_point tr_ topo feature_id g))
  | .multi_point g => some (some (visit_multi_point tr_ topo feature_id g))
  | .linestring g => (visit_linestring tr_ topo feature_id g).map some
  | .multi_linestring g => (visit_multi_linestring tr_ topo feature_id g).map some
  | .polygon g => (visit_polygon simplify tr_ topo feature_id g).map some
  | .multi_polygon g => (visit_multi_polygon tr_ topo feature_id g).map some
  | .invalid => some none

/-- The state of a `topojson_featureset`: the topology, the index array, the position of
`index_itr_` in it (`index_end_` is its length) and the counter `feature_id_` (a
`std::size_t`, which cannot overflow before the index array is consumed). -/
structure topojson_featureset (α : Type) where
  topo : topology α
  index_array : List Nat
  index_itr : Nat
  feature_id : Nat

/-- The constructor (lines 362-371): the cursor at the start, the counter at 0. -/
def make_featureset {α : Type} (topo : topology α) (index_array : List Nat) :
    topojson_featureset α :=
  { topo := topo, index_array := index_array, index_itr := 0, feature_id := 0 }

/-- The method `next()` (lines 375-391): the pointer returned and the state after the
call.  The cursor and the counter are updated before the visitor runs and the visitor
does not touch them, so the state is given for every call; the pointer is `none` when the
visit runs into an undefined access. -/
def next {α : Type} [Zero α] [Add α] [Mul α]
    (simplify : List (coordinate α) → List (coordinate α)) (tr_ : String → String)
    (fs : topojson_featureset α) : Option (feature_ptr α) × topojson_featureset α :=
  match fs.index_array[fs.index_itr]? with
  | some index =>
    match fs.topo.geometries[index]? with
    | some geom =>
      (feature_generator simplify tr_ fs.topo fs.feature_id geom,
        { fs with index_itr := fs.index_itr + 1, feature_id := fs.feature_id + 1 })
    | none => (some none, { fs with index_itr := fs.index_itr + 1 })
  | none => (some none, fs)

/-! ## Closed forms used in the statements -/

/-- The decoded coordinates of a run of raw coordinates, the running sum being `p` at
its start. -/
def decode_from {α : Type} [Add α] [Mul α] (tr : Option (transform α)) (p : α × α) :
    List (coordinate α) → List (coordinate α)
  | [] => []
  | pt :: rest => (decode_step tr p pt).2 :: decode_from tr (decode_step tr p pt).1 rest

/-- The commands that draw a run of vertices: the first one is a move-to when `first`
holds, every other one is a line-to. -/
def draw {α : Type} (first : Bool) : List (coordinate α) → List (command α)
  | [] => []
  | c :: cs =>
    (if first then command.move_to c.x c.y else command.line_to c.x c.y)
      :: cs.map (fun d => command.line_to d.x d.y)

/-- The open path of a run of vertices: move-to the first, line-to the others. -/
def open_path {α : Type} (cs : List (coordinate α)) : List (command α) :=
  draw true cs

/-- The running sum of the first `k + 1` numbers of a list, accumulated from `0` in
list order. -/
def running_sum {α : Type} [Zero α] [Add α] (xs : List α) (k : Nat) : α :=
  (xs.take (k + 1)).foldl (fun acc d => acc + d) 0

/-! ## The simplifier -/

section Simplifier

variable {α : Type} [Zero α] [One α] [Add α] [Sub α] [Mul α] [LT α]
  [∀ u v : α, Decidable (u < v)]

/-- Modelled from the spec: the perpendicular distance used by
`boost::geometry::simplify`, a library routine that is not part of the sources.  The
squared deviation of `p` from the line joining `a` and `b`, as a fraction
(numerator, denominator); when `a` and `b` coincide it is the squared distance to `a`. -/
def deviation (a b p : coordinate α) : α × α :=
  let dx := b.x - a.x
  let dy := b.y - a.y
  let len2 := dx * dx + dy * dy
  if 0 < len2 then
    let cross := dx * (p.y - a.y) - dy * (p.x - a.x)
    (cross * cross, len2)
  else
    ((p.x - a.x) * (p.x - a.x) + (p.y - a.y) * (p.y - a.y), 1)

/-- Modelled from the spec: the search for the point of a span that deviates most from
the line joining the ends `a` and `b` of the span (part of the library simplifier).
Returns the position in the list and the numerator of the squared deviation; the first
of several equally far points wins. -/
def farthest (a b : coordinate α) :
    List (coordinate α) → Nat → Option (Nat × α) → Option (Nat × α)
  | [], _, best => best
  | p :: ps, i, best =>
    let d := (deviation a b p).1
    match best with
    | none => farthest a b ps (i + 1) (some (i, d))
    | some (j, md) =>
      if md < d then farthest a b ps (i + 1) (some (i, d))
      else farthest a b ps (i + 1) (some (j, md))

/-- Modelled from the spec: `boost::geometry::simplify`, the library routine the polygon
visitor calls, described by the spec as the standard recursive point elimination by
perpendicular distance: the ends of a span are kept; the interior point that deviates
most from the line joining the ends is kept when its deviation exceeds the tolerance, and
the two halves are then treated in the same way; otherwise every interior point is
dropped.  `tol2` is the square of the tolerance, `fuel` bounds the depth of the
recursion (the length of the input is enough). -/
def douglas_peucker : Nat → α → List (coordinate α) → List (coordinate α)
  | 0, _, pts => pts
  | fuel + 1, tol2, pts =>
    match pts with
    | [] => []
    | [a] => [a]
    | a :: rest =>
      let b := rest.getLastD a
      match farthest a b rest.dropLast 0 none with
      | none => [a, b]
      | some (i, d) =>
        if tol2 * (deviation a b a).2 < d then
          douglas_peucker fuel tol2 (pts.take (i + 2))
            ++ (douglas_peucker fuel tol2 (pts.drop (i + 1))).tail
        else [a, b]

end Simplifier

/-- Modelled from the spec: the call `boost::geometry::simplify(processed_coords,
simplified, 2)` of the polygon visitor on integer coordinates: the simplifier with
tolerance 2 (squared: 4). -/
def simplify_2 (pts : List (coordinate Int)) : List (coordinate Int) :=
  douglas_peucker pts.length 4 pts

/-! ## Closed forms of the rings -/

/-- A ring reference can be followed: the resolved arc index is in range and the arc
has at least one coordinate. -/
def ref_ok {α : Type} (topo : topology α) (index : index_type) : Bool :=
  match arcs_at topo.arcs (resolve_ring index).2 with
  | some a => !a.coordinates.isEmpty
  | none => false

/-- The coordinates of an arc reference in traversal order: the decoded coordinates of
the referenced arc, reversed when the reference is negative (empty when the reference is
out of range). -/
def arc_traversal {α : Type} [Zero α] [Add α] [Mul α] (topo : topology α)
    (index : index_type) : List (coordinate α) :=
  match arcs_at topo.arcs (if index < 0 then -index - 1 else index) with
  | some a =>
    if index < 0 then (decode_from topo.tr (0, 0) a.coordinates).reverse
    else decode_from topo.tr (0, 0) a.coordinates
  | none => []

/-- The commands of one ring as the spec words them: the arcs of the ring in order, each
in traversal order with its last coordinate dropped, drawn as one run (move-to first,
line-to after), followed by one close-path. -/
def ring_commands {α : Type} [Zero α] [Add α] [Mul α] (topo : topology α)
    (ring : List index_type) : List (command α) :=
  open_path (ring.map (fun index => (arc_traversal topo index).dropLast)).flatten
    ++ [command.close_path]

/-- The simplified coordinates of an arc reference in traversal order: the decoded
coordinates of the referenced arc are simplified, then reversed when the reference is
negative. -/
def simplified_traversal {α : Type} [Zero α] [Add α] [Mul α]
    (simplify : List (coordinate α) → List (coordinate α)) (topo : topology α)
    (index : index_type) : List (coordinate α) :=
  match arcs_at topo.arcs (if index < 0 then -index - 1 else index) with
  | some a =>
    if index < 0 then (simplify (decode_from topo.tr (0, 0) a.coordinates)).reverse
    else simplify (decode_from topo.tr (0, 0) a.coordinates)
  | none => []

/-- The commands of one ring of the polygon visitor: as `ring_commands`, on the
simplified coordinates. -/
def simplified_ring_commands {α : Type} [Zero α] [Add α] [Mul α]
    (simplify : List (coordinate α) → List (coordinate α)) (topo : topology α)
    (ring : List index_type) : List (command α) :=
  open_path (ring.map (fun index => (simplified_traversal simplify topo index).dropLast)).flatten
    ++ [command.close_path]

/-- A ring reference can be followed by the polygon visitor: the resolved arc index is
in range and the simplified run of the arc has at least one coordinate. -/
def simplified_ref_ok {α : Type} [Zero α] [Add α] [Mul α]
    (simplify : List (coordinate α) → List (coordinate α)) (topo : topology α)
    (index : index_type) : Bool :=
  match arcs_at topo.arcs (resolve_ring index).2 with
  | some a => !(simplify (process_coords topo.tr a.coordinates)).isEmpty
  | none => false

/-! ## Closed forms for the featureset, the properties and the delta encoding -/

/-- The state of a featureset after `k` calls of `next()`. -/
def after_calls {α : Type} [Zero α] [Add α] [Mul α]
    (simplify : List (coordinate α) → List (coordinate α)) (tr_ : String → String) :
    Nat → topojson_featureset α → topojson_featureset α
  | 0, fs => fs
  | k + 1, fs => after_calls simplify tr_ k (next simplify tr_ fs).2

/-- The pointer returned by call number `i` (counting from 0) of `next()`. -/
def nth_result {α : Type} [Zero α] [Add α] [Mul α]
    (simplify : List (coordinate α) → List (coordinate α)) (tr_ : String → String)
    (fs : topojson_featureset α) (i : Nat) : Option (feature_ptr α) :=
  (next simplify tr_ (after_calls simplify tr_ i fs)).1

/-- The property list a geometry carries. -/
def geometry.props {α : Type} : geometry α → Option (properties α)
  | .invalid => none
  | .point g => g.props
  | .linestring g => g.props
  | .polygon g => g.props
  | .multi_point g => g.props
  | .multi_linestring g => g.props
  | .multi_polygon g => g.props

/-- Modelled from the spec: `feature_impl::put_new` (feature.hpp, not part of the
sources), on the property mapping of a feature, whose keys are unique and keep their
insertion order: a key already present takes the new value in place, a new key is added
at the end. -/
def put_new {α : Type} (m : List (String × value α)) (key : String) (val : value α) :
    List (String × value α) :=
  if m.any (fun p => p.1 == key) then
    m.map (fun p => if p.1 = key then (p.1, val) else p)
  else m ++ [(key, val)]

/-- Modelled from the spec: the property mapping of a feature, built by its `put_new`
calls in order from the empty mapping. -/
def feature_properties {α : Type} (f : feature_impl α) : List (String × value α) :=
  f.puts.foldl (fun m p => put_new m p.1 p.2) []

/-- The successive deltas of an absolute coordinate sequence whose predecessor is
`prev`: each coordinate minus the one before it. -/
def delta_encode_from {α : Type} [Sub α] (prev : coordinate α) :
    List (coordinate α) → List (coordinate α)
  | [] => []
  | c :: cs => ⟨c.x - prev.x, c.y - prev.y⟩ :: delta_encode_from c cs

/-- The delta encoding of an absolute coordinate sequence: `d_0 = c_0`,
`d_k = c_k - c_(k-1)`. -/
def delta_encode {α : Type} [Sub α] : List (coordinate α) → List (coordinate α)
  | [] => []
  | c :: cs => c :: delta_encode_from c cs

/-- The affine image of a coordinate under a transform. -/
def transform.apply {α : Type} [Add α] [Mul α] (t : transform α) (c : coordinate α) :
    coordinate α :=
  ⟨c.x * t.scale_x + t.translate_x, c.y * t.scale_y + t.translate_y⟩

/-! ## Closed forms for joined rings and the members of a MultiLineString -/

/-- The vertices a path visits, in order. -/
def vertices {α : Type} (cont : List (command α)) : List (coordinate α) :=
  cont.filterMap command.vertex

/-- The ring obtained by joining runs of coordinates end to end: the first run, then
every other run without its first coordinate, so that a coordinate shared by the end of a
run and the start of the next one appears once. -/
def joined {β : Type} : List (List β) → List β
  | [] => []
  | r :: rs => r ++ (rs.map List.tail).flatten

/-- Consecutive runs share their ends: every run has a coordinate and the last
coordinate of each run is the first coordinate of the next one. -/
def ends_coincide {β : Type} : List (List β) → Prop
  | [] => True
  | [r] => r ≠ []
  | r :: s :: rest => r ≠ [] ∧ r.getLast? = s.head? ∧ ends_coincide (s :: rest)

/-- The resolved arc index of a ring reference is in range. -/
def ref_in_range {α : Type} (topo : topology α) (index : index_type) : Bool :=
  (arcs_at topo.arcs (resolve_ring index).2).isSome

/-- The arc a ring reference resolves to (the empty arc when it is out of range). -/
def referenced_arc {α : Type} (topo : topology α) (index : index_type) : arc α :=
  (arcs_at topo.arcs (resolve_ring index).2).getD ⟨[]⟩

/-! ## Example data -/

/-- The arc of the end-to-end scenarios: raw deltas `(0,0), (1,0), (0,1)`. -/
def example_arc : arc Int := ⟨[⟨0, 0⟩, ⟨1, 0⟩, ⟨0, 1⟩]⟩

/-- A topology with the identity transform and the arc `example_arc`. -/
def example_topology : topology Int :=
  { geometries := [], arcs := [example_arc], tr := some ⟨1, 1, 0, 0⟩ }

/-- The same arc read as absolute coordinates, in a topology without transform. -/
def example_topology_plain : topology Int :=
  { geometries := [], arcs := [example_arc], tr := none }

/-- The topology of the polygon scenario of the spec: no transform, arc 0 =
`(0,0), (1,0)` and arc 1 = `(1,0), (1,1), (0,0)`. -/
def example_topology_ring : topology Int :=
  { geometries := [],
    arcs := [⟨[⟨0, 0⟩, ⟨1, 0⟩]⟩, ⟨[⟨1, 0⟩, ⟨1, 1⟩, ⟨0, 0⟩]⟩],
    tr := none }

/-- A topology without transform whose single arc runs along a straight line:
`(0,0), (1,0), (2,0)`. -/
def example_topology_collinear : topology Int :=
  { geometries := [],
    arcs := [⟨[⟨0, 0⟩, ⟨1, 0⟩, ⟨2, 0⟩]⟩],
    tr := none }

/-- A topology with three Point geometries, no arcs and no transform. -/
def example_topology_points : topology Int :=
  { geometries := [geometry.point ⟨⟨10, 20⟩, some [("name", value.str "A")]⟩,
                   geometry.point ⟨⟨1, 2⟩, none⟩,
                   geometry.point ⟨⟨3, 4⟩, none⟩],
    arcs := [],
    tr := none }

/-- A topology without transform whose arc 1 has a single coordinate. -/
def example_topology_single : topology Int :=
  { geometries := [],
    arcs := [⟨[⟨0, 0⟩, ⟨1, 0⟩]⟩, ⟨[⟨5, 5⟩]⟩],
    tr := none }

end Topojson

/-!
# vertex_vector (include/mapnik/vertex_vector.hpp)

The container is modelled by its member `vertices_`, a list of tuples (command, x, y).
Commands are unsigned values (`push_back` takes a `std::uint8_t`, which is stored
unchanged); positions are the values of `unsigned` arguments.  The constant `SEG_END` is
declared in vertex.hpp and is taken as a parameter.  The two output parameters of
`get_vertex` are modelled by the pair of values written through them, `none` when
nothing is written.
-/

namespace Mapnik

/-- The class `vertex_vector<T>`: its member `vertices_`. -/
structure vertex_vector (T : Type) where
  vertices_ : List (Nat × T × T)

/-- The constructor (lines 58-59): `vertices_(0)`, a vector with no element. -/
def vertex_vector.create (T : Type) : vertex_vector T :=
  { vertices_ := [] }

/-- The method `size()` (lines 78-81). -/
def vertex_vector.size {T : Type} (v : vertex_vector T) : Nat :=
  v.vertices_.length

/-- The method `push_back` (lines 83-86): `vertices_.emplace_back(command, x, y)`. -/
def vertex_vector.push_back {T : Type} (v : vertex_vector T) (x y : T) (command : Nat) :
    vertex_vector T :=
  { vertices_ := v.vertices_ ++ [(command, x, y)] }

/-- The method `get_vertex` (lines 93-100): the command returned and the values written
to `*x` and `*y`, if any. -/
def vertex_vector.get_vertex {T : Type} (SEG_END : Nat) (v : vertex_vector T) (pos : Nat) :
    Nat × Option (T × T) :=
  if h : v.vertices_.length ≤ pos then (SEG_END, none)
  else
    let t := v.vertices_.get ⟨pos, Nat.lt_of_not_le h⟩
    (t.1, some (t.2.1, t.2.2))

/-- The output variables of a caller after a call of `get_vertex`: the written values,
or the old ones when nothing is written. -/
def outputs_after {T : Type} (old : T × T) (written : Option (T × T)) : T × T :=
  written.getD old

end Mapnik

/-!
# Stack blur (src/blur.cpp)

`unsigned` values are natural numbers below 2^32 and unsigned arithmetic is taken modulo
2^32.  A pixel, a stack entry and a group of four sums are all four channel values.  The
image is given by its width, its height and the pixel at column x of row y; a pointer
into the image is modelled by the coordinates of the pixel it points to, so that
`pix_ptr(x, y)` is `(x, y)`, adding `pix_width` moves to the next column and adding the
stride moves to the next row.  Reads outside the image are not modelled as faults.  The
channels of an image hold `int8u` values (below 256).  The tables `g_stack_blur8_mul`
and `g_stack_blur8_shr` (agg_blur.h) are parameters.
-/

namespace agg

/-- The value of an `unsigned` expression. -/
def u32 (n : Nat) : Nat := n % 2 ^ 32

/-- The difference `a - b` of two `unsigned` values. -/
def usub (a b : Nat) : Nat := (a + (2 ^ 32 - b % 2 ^ 32)) % 2 ^ 32

/-- Four channel values. -/
structure rgba where
  r : Nat
  g : Nat
  b : Nat
  a : Nat
deriving DecidableEq, Repr

/-- The update `sum += c` on the four channels. -/
def rgba.add (s c : rgba) : rgba :=
  ⟨u32 (s.r + c.r), u32 (s.g + c.g), u32 (s.b + c.b), u32 (s.a + c.a)⟩

/-- The update `sum -= c` on the four channels. -/
def rgba.sub (s c : rgba) : rgba :=
  ⟨usub s.r c.r, usub s.g c.g, usub s.b c.b, usub s.a c.a⟩

/-- The update `sum += c * k` on the four channels. -/
def rgba.add_mul (s c : rgba) (k : Nat) : rgba :=
  ⟨u32 (s.r + u32 (c.r * k)), u32 (s.g + u32 (c.g * k)), u32 (s.b + u32 (c.b * k)),
   u32 (s.a + u32 (c.a * k))⟩

/-- The pixel `(sum * mul_sum) >> shr_sum`, each channel stored in an `int8u`. -/
def rgba.scaled (s : rgba) (mul_sum shr_sum : Nat) : rgba :=
  ⟨(u32 (s.r * mul_sum) / 2 ^ shr_sum) % 256, (u32 (s.g * mul_sum) / 2 ^ shr_sum) % 256,
   (u32 (s.b * mul_sum) / 2 ^ shr_sum) % 256, (u32 (s.a * mul_sum) / 2 ^ shr_sum) % 256⟩

/-- The image behind the pixel format. -/
structure pixfmt where
  width : Nat
  height : Nat
  pix : Nat → Nat → rgba

/-- The pixel a pointer points to. -/
def pixfmt.read (img : pixfmt) (p : Nat × Nat) : rgba :=
  img.pix p.1 p.2

/-- The image after the four channels of the pixel a pointer points to are assigned. -/
def pixfmt.write (img : pixfmt) (p : Nat × Nat) (c : rgba) : pixfmt :=
  { img with pix := fun x y => if x = p.1 ∧ y = p.2 then c else img.pix x y }

/-- The stack after `stack[i]` is assigned. -/
def stack_set (stack : Nat → rgba) (i : Nat) (c : rgba) : Nat → rgba :=
  fun j => if j = i then c else stack j

/-- The pointer after `+= Img::pix_width`. -/
def next_column (p : Nat × Nat) : Nat × Nat := (p.1 + 1, p.2)

/-- The pointer after `+= stride`. -/
def next_row (p : Nat × Nat) : Nat × Nat := (p.1, p.2 + 1)

/-- The variables of one pass over a row or a column; `p` is `xp` in the horizontal pass
and `yp` in the vertical pass. -/
structure blur_state where
  img : pixfmt
  stack : Nat → rgba
  sum : rgba
  sum_in : rgba
  sum_out : rgba
  src_pix_ptr : Nat × Nat
  dst_pix_ptr : Nat × Nat
  stack_ptr : Nat
  p : Nat

/-- The body of the first filling loop (lines 81-93 and 203-215). -/
def fill_out (s : blur_state) (i : Nat) : blur_state :=
  let c := s.img.read s.src_pix_ptr
  { s with
    stack := stack_set s.stack i c,
    sum := s.sum.add_mul c (u32 (i + 1)),
    sum_out := s.sum_out.add c }

/-- The body of the second filling loop (lines 97-110 and 219-232); `advance` is
`+= pix_width` or `+= stride`, `r` the radius and `m` the bound `wm` or `hm`. -/
def fill_in (advance : Nat × Nat → Nat × Nat) (r m : Nat) (s : blur_state) (i : Nat) :
    blur_state :=
  let src := if i ≤ m then advance s.src_pix_ptr else s.src_pix_ptr
  let c := s.img.read src
  { s with
    src_pix_ptr := src,
    stack := stack_set s.stack (i + r) c,
    sum := s.sum.add_mul c (usub (u32 (r + 1)) i),
    sum_in := s.sum_in.add c }

/-- The body of the main loop (lines 120-171 and 242-293). -/
def blur_step (advance : Nat × Nat → Nat × Nat) (r m div mul_sum shr_sum : Nat)
    (s : blur_state) : blur_state :=
  let img := s.img.write s.dst_pix_ptr (s.sum.scaled mul_sum shr_sum)
  let dst := advance s.dst_pix_ptr
  let sum := s.sum.sub s.sum_out
  let stack_start0 := usub (u32 (s.stack_ptr + div)) r
  let stack_start := if stack_start0 ≥ div then usub stack_start0 div else stack_start0
  let sum_out := s.sum_out.sub (s.stack stack_start)
  let src := if s.p < m then advance s.src_pix_ptr else s.src_pix_ptr
  let p := if s.p < m then u32 (s.p + 1) else s.p
  let c := img.read src
  let stack := stack_set s.stack stack_start c
  let sum_in := s.sum_in.add c
  let sum := sum.add sum_in
  let stack_ptr0 := u32 (s.stack_ptr + 1)
  let stack_ptr := if stack_ptr0 ≥ div then 0 else stack_ptr0
  { img := img,
    stack := stack,
    sum := sum,
    sum_in := sum_in.sub (stack stack_ptr),
    sum_out := sum_out.add (stack stack_ptr),
    src_pix_ptr := src,
    dst_pix_ptr := dst,
    stack_ptr := stack_ptr,
    p := p }

/-- The body of the loop over the rows in the horizontal pass (lines 65-172), for the
row `y`: the image and the stack before and after.  The main loop runs for
`x = offset_x, ..., (w - offset_x) - 1`. -/
def blur_row (rx offset_x offset_y w wm div mul_sum shr_sum : Nat)
    (st : pixfmt × (Nat → rgba)) (y : Nat) : pixfmt × (Nat → rgba) :=
  let s0 : blur_state :=
    { img := st.1, stack := st.2,
      sum := ⟨0, 0, 0, 0⟩, sum_in := ⟨0, 0, 0, 0⟩, sum_out := ⟨0, 0, 0, 0⟩,
      src_pix_ptr := (offset_y, y),
      dst_pix_ptr := (0, 0), stack_ptr := 0, p := 0 }
  let s1 := (List.range (rx + 1)).foldl fill_out s0
  let s2 := (List.range' 1 rx).foldl (fill_in next_column rx wm) s1
  let xp := if rx > wm then wm else rx
  let s3 : blur_state :=
    { s2 with
      stack_ptr := rx, p := xp,
      src_pix_ptr := (u32 (xp + offset_x), y),
      dst_pix_ptr := (offset_x, y) }
  let s4 := (List.range (usub w offset_x - offset_x)).foldl
    (fun s _ => blur_step next_column rx wm div mul_sum shr_sum s) s3
  (s4.img, s4.stack)

/-- The body of the loop over the columns in the vertical pass (lines 187-294), for the
column `x`.  The main loop runs for `y = ry, ..., (h - offset_y) - 1`, `ry` being the
radius after the clamp to 254. -/
def blur_column (ry offset_x offset_y h hm div mul_sum shr_sum : Nat)
    (st : pixfmt × (Nat → rgba)) (x : Nat) : pixfmt × (Nat → rgba) :=
  let s0 : blur_state :=
    { img := st.1, stack := st.2,
      sum := ⟨0, 0, 0, 0⟩, sum_in := ⟨0, 0, 0, 0⟩, sum_out := ⟨0, 0, 0, 0⟩,
      src_pix_ptr := (x, offset_x),
      dst_pix_ptr := (0, 0), stack_ptr := 0, p := 0 }
  let s1 := (List.range (ry + 1)).foldl fill_out s0
  let s2 := (List.range' 1 ry).foldl (fill_in next_row ry hm) s1
  let yp := if ry > hm then hm else ry
  let s3 : blur_state :=
    { s2 with
      stack_ptr := ry, p := yp,
      src_pix_ptr := (x, u32 (yp + offset_y)),
      dst_pix_ptr := (x, offset_y) }
  let s4 := (List.range (usub h offset_y - ry)).foldl
    (fun s _ => blur_step next_row ry hm div mul_sum shr_sum s) s3
  (s4.img, s4.stack)

/-- The function `_stack_blur_rgba32` (lines 10-297); the stack is allocated with
entries that are all assigned before they are read. -/
def _stack_blur_rgba32 (g_stack_blur8_mul g_stack_blur8_shr : Nat → Nat) (img : pixfmt)
    (rx ry offset_x offset_y : Nat) : pixfmt :=
  let w := img.width
  let h := img.height
  let wm := usub (usub w (u32 (offset_x * 2))) 1
  let hm := usub (usub h (u32 (offset_y * 2))) 1
  let stack : Nat → rgba := fun _ => ⟨0, 0, 0, 0⟩
  let img1 :=
    if rx > 0 then
      let rx := if rx > 254 then 254 else rx
      let div := rx * 2 + 1
      let mul_sum := g_stack_blur8_mul rx
      let shr_sum := g_stack_blur8_shr rx
      ((List.range' offset_y (usub h offset_y - offset_y)).foldl
        (blur_row rx offset_x offset_y w wm div mul_sum shr_sum) (img, stack)).1
    else img
  if ry > 0 then
    let ry := if ry > 254 then 254 else ry
    let div := ry * 2 + 1
    let mul_sum := g_stack_blur8_mul ry
    let shr_sum := g_stack_blur8_shr ry
    ((List.range' offset_x (usub w offset_x - offset_x)).foldl
      (blur_column ry offset_x offset_y h hm div mul_sum shr_sum) (img1, stack)).1
  else img1

end agg

namespace agg_blur

/-- The function `blur` (lines 302-307). -/
def blur (g_stack_blur8_mul g_stack_blur8_shr : Nat → Nat) (buf : agg.pixfmt)
    (rx ry : Nat) : agg.pixfmt :=
  let offset_x := rx
  let offset_y := ry
  agg._stack_blur_rgba32 g_stack_blur8_mul g_stack_blur8_shr buf rx ry offset_x offset_y

/-- An image of width 1 and height 511 that is black except for the pixel of row 256. -/
def example_image : agg.pixfmt :=
  { width := 1, height := 511,
    pix := fun _ y => if y = 256 then ⟨7, 7, 7, 7⟩ else ⟨0, 0, 0, 0⟩ }

/-- A small image: width 5, height 5, the pixel (x, y) holding 10 * y + x in every
channel. -/
def example_image_small : agg.pixfmt :=
  { width := 5, height := 5,
    pix := fun x y => ⟨10 * y + x, 10 * y + x, 10 * y + x, 10 * y + x⟩ }

end agg_blur

namespace Topojson

/-! ## Lemmas on the loops -/

section Loops

variable {α : Type}

theorem draw_length (first : Bool) (cs : List (coordinate α)) :
    (draw first cs).length = cs.length := by
  cases cs <;> simp [draw]

theorem foldl_emit_step (rng : List (coordinate α)) (s : ring_state α) :
    rng.foldl emit_step s
      = { first := s.first && rng.isEmpty, cont := s.cont ++ draw s.first rng } := by
  induction rng generalizing s with
  | nil => cases s; simp [draw]
  | cons c cs ih =>
    rw [List.foldl_cons, ih]
    cases s with
    | mk first cont =>
      cases first <;> cases cs <;> simp [emit_step, draw]

theorem foldl_line_step [Add α] [Mul α] (tr : Option (transform α))
    (coords : List (coordinate α)) (s : line_state α) :
    (coords.foldl (line_step tr) s).cont = s.cont ++ draw s.first (decode_from tr s.p coords) := by
  induction coords generalizing s with
  | nil => simp [draw, decode_from]
  | cons c cs ih =>
    rw [List.foldl_cons, ih]
    cases s with
    | mk p first cont =>
      cases first <;> cases cs <;> simp [line_step, draw, decode_from]

theorem line_loop_eq [Zero α] [Add α] [Mul α] (tr : Option (transform α))
    (coords : List (coordinate α)) :
    line_loop tr coords = open_path (decode_from tr (0, 0) coords) := by
  simp [line_loop, open_path, foldl_line_step]

theorem foldl_process_step [Add α] [Mul α] (tr : Option (transform α))
    (coords : List (coordinate α)) (s : (α × α) × List (coordinate α)) :
    (coords.foldl (process_step tr) s).2 = s.2 ++ decode_from tr s.1 coords := by
  induction coords generalizing s with
  | nil => simp [decode_from]
  | cons c cs ih =>
    rw [List.foldl_cons, ih]
    simp [process_step, decode_from]

theorem process_coords_eq [Zero α] [Add α] [Mul α] (tr : Option (transform α))
    (coords : List (coordinate α)) :
    process_coords tr coords = decode_from tr (0, 0) coords := by
  simp [process_coords, foldl_process_step]

theorem decode_from_length [Add α] [Mul α] (tr : Option (transform α)) (p : α × α)
    (coords : List (coordinate α)) : (decode_from tr p coords).length = coords.length := by
  induction coords generalizing p with
  | nil => rfl
  | cons c cs ih => simp [decode_from, ih]

theorem decode_from_none [Add α] [Mul α] (p : α × α) (coords : List (coordinate α)) :
    decode_from none p coords = coords := by
  induction coords generalizing p with
  | nil => rfl
  | cons c cs ih => simp [decode_from, decode_step, ih]

theorem decode_from_some_getElem [Add α] [Mul α] (t : transform α) (p : α × α)
    (coords : List (coordinate α)) (k : Nat) (hk : k < coords.length) :
    (decode_from (some t) p coords)[k]?
      = some ⟨((coords.take (k + 1)).map coordinate.x).foldl (fun acc d => acc + d) p.1
                * t.scale_x + t.translate_x,
              ((coords.take (k + 1)).map coordinate.y).foldl (fun acc d => acc + d) p.2
                * t.scale_y + t.translate_y⟩ := by
  induction coords generalizing p k with
  | nil => simp at hk
  | cons c cs ih =>
    cases k with
    | zero => simp [decode_from, decode_step]
    | succ k =>
      have hk2 : k < cs.length := by simpa using hk
      simp only [decode_from, List.getElem?_cons_succ]
      rw [ih _ k hk2]
      simp [decode_step]

theorem draw_getElem (first : Bool) (cs : List (coordinate α)) (k : Nat) (c : coordinate α)
    (h : cs[k]? = some c) :
    (draw first cs)[k]?
      = some (if k = 0 ∧ first = true then command.move_to c.x c.y
              else command.line_to c.x c.y) := by
  cases cs with
  | nil => simp at h
  | cons d ds =>
    cases k with
    | zero =>
      simp at h
      subst h
      cases first <;> simp [draw]
    | succ k =>
      simp at h
      simp [draw, h]

theorem arcs_at_of_range (arcs : List (arc α)) (i : Int) (h0 : 0 ≤ i)
    (h1 : i < arcs.length) : ∃ a, arcs_at arcs i = some a ∧ arcs[i.toNat]? = some a := by
  have hlt : i.toNat < arcs.length := by omega
  refine ⟨arcs[i.toNat], ?_, ?_⟩
  · simp [arcs_at, h0, List.getElem?_eq_getElem hlt]
  · simp [List.getElem?_eq_getElem hlt]

theorem resolve_ring_eq (index : Int) :
    resolve_ring index = (decide (index < 0), if index < 0 then -index - 1 else index) := by
  by_cases h : index < 0
  · simp [resolve_ring, h, abs_of_neg h]
  · simp [resolve_ring, h]

theorem sliced_dropLast {β : Type} (l : List β) (h : l ≠ []) :
    sliced l 0 (size_minus_one l.length) = some l.dropLast := by
  have hlen : l.length ≠ 0 := by simpa using h
  simp [sliced, size_minus_one, hlen, List.dropLast_eq_take]

theorem multi_polygon_arc_ok [Zero α] [Add α] [Mul α] (topo : topology α) (s : ring_state α)
    (index : Int) (h : ref_ok topo index = true) :
    multi_polygon_arc topo s index
      = some ((arc_traversal topo index).dropLast.foldl emit_step s) := by
  unfold ref_ok at h
  unfold multi_polygon_arc arc_traversal
  rw [resolve_ring_eq] at h ⊢
  simp only at h ⊢
  cases harc : arcs_at topo.arcs (if index < 0 then -index - 1 else index) with
  | none => simp [harc] at h
  | some a =>
    rw [harc] at h
    have hne : decode_from topo.tr (0, 0) a.coordinates ≠ [] := by
      intro hnil
      have hl := decode_from_length topo.tr (0, 0) a.coordinates
      rw [hnil] at hl
      cases hc : a.coordinates with
      | nil => simp [hc] at h
      | cons c cs => simp [hc] at hl
    by_cases hneg : index < 0
    · have hne2 : (decode_from topo.tr (0, 0) a.coordinates).reverse ≠ [] := by
        intro hr
        exact hne (List.reverse_eq_nil_iff.mp hr)
      have hs := sliced_dropLast _ hne2
      rw [List.length_reverse] at hs
      simp only [hneg, if_true, process_coords_eq, hs]
      simp
    · have hd : decide (index < 0) = false := decide_eq_false hneg
      simp only [hneg, hd, if_false, process_coords_eq, sliced_dropLast _ hne]
      rfl

theorem polygon_arc_ok [Zero α] [Add α] [Mul α]
    (simplify : List (coordinate α) → List (coordinate α)) (topo : topology α)
    (s : ring_state α) (index : Int) (h : simplified_ref_ok simplify topo index = true) :
    polygon_arc simplify topo s index
      = some ((simplified_traversal simplify topo index).dropLast.foldl emit_step s) := by
  unfold simplified_ref_ok at h
  unfold polygon_arc simplified_traversal
  rw [resolve_ring_eq] at h ⊢
  simp only at h ⊢
  cases harc : arcs_at topo.arcs (if index < 0 then -index - 1 else index) with
  | none => simp [harc] at h
  | some a =>
    rw [harc] at h
    have hne : simplify (decode_from topo.tr (0, 0) a.coordinates) ≠ [] := by
      intro hnil
      simp only [process_coords_eq, hnil] at h
      simp at h
    by_cases hneg : index < 0
    · have hne2 : (simplify (decode_from topo.tr (0, 0) a.coordinates)).reverse ≠ [] := by
        intro hr
        exact hne (List.reverse_eq_nil_iff.mp hr)
      have hs := sliced_dropLast _ hne2
      rw [List.length_reverse] at hs
      simp only [hneg, if_true, process_coords_eq, hs]
      simp
    · have hd : decide (index < 0) = false := decide_eq_false hneg
      simp only [hneg, hd, if_false, process_coords_eq, sliced_dropLast _ hne]
      rfl

theorem foldlM_emit (f : ring_state α → Int → Option (ring_state α))
    (run : Int → List (coordinate α)) (ring : List Int)
    (h : ∀ index ∈ ring, ∀ s, f s index = some ((run index).foldl emit_step s))
    (s : ring_state α) :
    ring.foldlM f s = some ((ring.map run).flatten.foldl emit_step s) := by
  induction ring generalizing s with
  | nil => rfl
  | cons i is ih =>
    rw [List.foldlM_cons, h i (List.mem_cons_self _ _) s]
    simp only [Option.bind_eq_bind, Option.some_bind]
    rw [ih (fun j hj => h j (List.mem_cons_of_mem _ hj))]
    simp [List.foldl_append]

theorem foldlM_rings (g : List (command α) → List Int → Option (List (command α)))
    (cmds : List Int → List (command α)) (poly : List (List Int))
    (h : ∀ ring ∈ poly, ∀ cont, g cont ring = some (cont ++ cmds ring))
    (cont : List (command α)) :
    poly.foldlM g cont = some (cont ++ (poly.map cmds).flatten) := by
  induction poly generalizing cont with
  | nil => simp
  | cons r rs ih =>
    rw [List.foldlM_cons, h r (List.mem_cons_self _ _) cont]
    simp only [Option.bind_eq_bind, Option.some_bind]
    rw [ih (fun j hj => h j (List.mem_cons_of_mem _ hj))]
    simp

theorem mapM_some {β γ : Type} (f : β → Option γ) (g : β → γ) (l : List β)
    (h : ∀ x ∈ l, f x = some (g x)) : l.mapM f = some (l.map g) := by
  induction l with
  | nil => rfl
  | cons x xs ih =>
    rw [List.mapM_cons, h x (List.mem_cons_self _ _),
      ih (fun y hy => h y (List.mem_cons_of_mem _ hy))]
    rfl

theorem multi_polygon_ring_ok [Zero α] [Add α] [Mul α] (topo : topology α)
    (cont : List (command α)) (ring : List Int)
    (h : ∀ index ∈ ring, ref_ok topo index = true) :
    multi_polygon_ring topo cont ring = some (cont ++ ring_commands topo ring) := by
  unfold multi_polygon_ring
  rw [foldlM_emit (multi_polygon_arc topo) (fun index => (arc_traversal topo index).dropLast)
    ring (fun index hi s => multi_polygon_arc_ok topo s index (h index hi))]
  simp [foldl_emit_step, ring_commands, open_path]

theorem polygon_ring_ok [Zero α] [Add α] [Mul α]
    (simplify : List (coordinate α) → List (coordinate α)) (topo : topology α)
    (cont : List (command α)) (ring : List Int)
    (h : ∀ index ∈ ring, simplified_ref_ok simplify topo index = true) :
    polygon_ring simplify topo cont ring
      = some (cont ++ simplified_ring_commands simplify topo ring) := by
  unfold polygon_ring
  rw [foldlM_emit (polygon_arc simplify topo)
    (fun index => (simplified_traversal simplify topo index).dropLast)
    ring (fun index hi s => polygon_arc_ok simplify topo s index (h index hi))]
  simp [foldl_emit_step, simplified_ring_commands, open_path]

theorem foldlM_option_congr {σ β : Type} (f g : σ → β → Option σ) (l : List β)
    (h : ∀ x ∈ l, ∀ s, f s x = g s x) (s : σ) : l.foldlM f s = l.foldlM g s := by
  induction l generalizing s with
  | nil => rfl
  | cons x xs ih =>
    rw [List.foldlM_cons, List.foldlM_cons, h x (List.mem_cons_self _ _) s]
    cases g s x with
    | none => rfl
    | some s2 => exact ih (fun y hy => h y (List.mem_cons_of_mem _ hy)) s2

theorem arc_traversal_length [Zero α] [Add α] [Mul α] (topo : topology α) (i : Int)
    (A : arc α) (hA : arcs_at topo.arcs (resolve_ring i).2 = some A) :
    (arc_traversal topo i).length = A.coordinates.length := by
  rw [resolve_ring_eq] at hA
  simp only at hA
  unfold arc_traversal
  rw [hA]
  by_cases hneg : i < 0
  · simp only [hneg, if_true, List.length_reverse, decode_from_length]
  · simp only [hneg, if_false, decode_from_length]

theorem simplified_traversal_length [Zero α] [Add α] [Mul α]
    (simplify : List (coordinate α) → List (coordinate α)) (topo : topology α) (i : Int)
    (A : arc α) (hA : arcs_at topo.arcs (resolve_ring i).2 = some A) :
    (simplified_traversal simplify topo i).length
      = (simplify (process_coords topo.tr A.coordinates)).length := by
  rw [resolve_ring_eq] at hA
  simp only at hA
  unfold simplified_traversal
  rw [hA]
  by_cases hneg : i < 0
  · simp only [hneg, if_true, List.length_reverse, process_coords_eq]
  · simp only [hneg, if_false, process_coords_eq]

theorem not_close_of_mem_draw (first : Bool) (cs : List (coordinate α)) (c : command α)
    (hc : c ∈ draw first cs) : c.is_close = false := by
  cases cs with
  | nil => simp [draw] at hc
  | cons d ds =>
    simp only [draw, List.mem_cons, List.mem_map] at hc
    rcases hc with hc | ⟨e, _, he⟩
    · subst hc
      cases first <;> simp [command.is_close]
    · subst he
      simp [command.is_close]

theorem countP_close_draw (first : Bool) (cs : List (coordinate α)) :
    (draw first cs).countP command.is_close = 0 := by
  rw [List.countP_eq_zero]
  intro c hc
  cases cs with
  | nil => simp [draw] at hc
  | cons d ds =>
    simp only [draw, List.mem_cons, List.mem_map] at hc
    rcases hc with hc | ⟨e, _, he⟩
    · subst hc
      cases first <;> simp [command.is_close]
    · subst he
      simp [command.is_close]

theorem countP_close_rings [Zero α] [Add α] [Mul α]
    (simplify : List (coordinate α) → List (coordinate α)) (topo : topology α)
    (rings : List (List index_type)) :
    (rings.map (simplified_ring_commands simplify topo)).flatten.countP command.is_close
      = rings.length := by
  induction rings with
  | nil => rfl
  | cons r rs ih =>
    rw [List.map_cons, List.flatten_cons, List.countP_append, ih]
    simp [simplified_ring_commands, open_path, countP_close_draw, command.is_close]
    omega

end Loops

/-! ## The claims -/

/-- C1: for a LineString whose arc reference selects an arc and a topology with a
Transform, the visitor returns a feature with one LineString path, and the k-th command
of that path (a move-to for k = 0, a line-to otherwise) carries the vertex
`((dx_0 + ... + dx_k) * scale_x + translate_x, (dy_0 + ... + dy_k) * scale_y + translate_y)`,
the sums being accumulated from `0` in arc order. -/
theorem linestring_vertex_running_sum {α : Type} [Zero α] [Add α] [Mul α]
    (tr_ : String → String) (topo : topology α) (feature_id : Nat) (line : linestring α)
    (t : transform α) (a : arc α) (k : Nat)
    (htr : topo.tr = some t) (harc : arcs_at topo.arcs line.ring = some a)
    (hk : k < a.coordinates.length) :
    ∃ cont, visit_linestring tr_ topo feature_id line
        = some { id := feature_id, paths := [⟨eGeomType.LineString, cont⟩],
                 puts := assign_properties tr_ line.props }
      ∧ cont[k]? = some
          (if k = 0 then
            command.move_to
              (running_sum (a.coordinates.map coordinate.x) k * t.scale_x + t.translate_x)
              (running_sum (a.coordinates.map coordinate.y) k * t.scale_y + t.translate_y)
          else
            command.line_to
              (running_sum (a.coordinates.map coordinate.x) k * t.scale_x + t.translate_x)
              (running_sum (a.coordinates.map coordinate.y) k * t.scale_y + t.translate_y)) := by
  refine ⟨line_loop topo.tr a.coordinates, ?_, ?_⟩
  · simp [visit_linestring, harc]
  · rw [line_loop_eq, htr, open_path,
      draw_getElem true _ k _ (decode_from_some_getElem t (0, 0) a.coordinates k hk)]
    simp [running_sum, List.map_take]

/-- C1, at the scenario of the spec: scale (1,1), translate (0,0), deltas
(0,0),(1,0),(0,1) give the path move-to(0,0), line-to(1,0), line-to(1,1); the general
statement is applied at the last vertex. -/
theorem linestring_vertex_running_sum_witness :
    visit_linestring id example_topology 0 ⟨0, none⟩
        = some { id := 0,
                 paths := [⟨eGeomType.LineString,
                   [command.move_to 0 0, command.line_to 1 0, command.line_to 1 1]⟩],
                 puts := [] }
    ∧ ∃ cont, visit_linestring id example_topology 0 ⟨0, none⟩
        = some { id := 0, paths := [⟨eGeomType.LineString, cont⟩],
                 puts := assign_properties id (none : Option (properties Int)) }
      ∧ cont[2]? = some
          (if 2 = 0 then
            command.move_to
              (running_sum (example_arc.coordinates.map coordinate.x) 2 * 1 + 0)
              (running_sum (example_arc.coordinates.map coordinate.y) 2 * 1 + 0)
          else
            command.line_to
              (running_sum (example_arc.coordinates.map coordinate.x) 2 * 1 + 0)
              (running_sum (example_arc.coordinates.map coordinate.y) 2 * 1 + 0)) :=
  ⟨by decide,
   linestring_vertex_running_sum id example_topology 0 ⟨0, none⟩ ⟨1, 1, 0, 0⟩ example_arc 2
     rfl (by decide) (by decide)⟩

/-- C2: for a LineString whose arc reference is in range, the visitor returns a feature
with a single LineString path that has as many commands as the arc has coordinates, the
first a move-to, every later one a line-to, none a close; without a Transform the path is
the open path of the raw coordinates, unchanged and in order. -/
theorem linestring_open_path {α : Type} [Zero α] [Add α] [Mul α]
    (tr_ : String → String) (topo : topology α) (feature_id : Nat) (line : linestring α)
    (h0 : 0 ≤ line.ring) (h1 : line.ring < topo.arcs.length) :
    ∃ a cont, topo.arcs[line.ring.toNat]? = some a
      ∧ visit_linestring tr_ topo feature_id line
        = some { id := feature_id, paths := [⟨eGeomType.LineString, cont⟩],
                 puts := assign_properties tr_ line.props }
      ∧ cont.length = a.coordinates.length
      ∧ (∀ c, cont[0]? = some c → c.is_move_to = true)
      ∧ (∀ k c, 0 < k → cont[k]? = some c → c.is_line_to = true)
      ∧ (∀ c ∈ cont, c.is_close = false)
      ∧ (topo.tr = none →
          cont = open_path a.coordinates ∧ cont.filterMap command.vertex = a.coordinates) := by
  obtain ⟨a, ha, hget⟩ := arcs_at_of_range topo.arcs line.ring h0 h1
  have hshape : ∀ (cs : List (coordinate α)) (k : Nat) (c : command α),
      (open_path cs)[k]? = some c →
        (k = 0 → c.is_move_to = true) ∧ (0 < k → c.is_line_to = true)
          ∧ c.is_close = false := by
    intro cs k c hc
    have hlen : k < cs.length := by
      have := (List.getElem?_eq_some_iff.mp hc).1
      simpa [open_path, draw_length] using this
    have hd := draw_getElem true cs k cs[k] (List.getElem?_eq_getElem hlen)
    rw [open_path, hd] at hc
    cases k with
    | zero =>
      simp at hc
      subst hc
      simp [command.is_move_to, command.is_close]
    | succ k =>
      simp at hc
      subst hc
      simp [command.is_line_to, command.is_close]
  refine ⟨a, line_loop topo.tr a.coordinates, hget, ?_, ?_, ?_, ?_, ?_, ?_⟩
  · simp [visit_linestring, ha]
  · simp [line_loop_eq, open_path, draw_length, decode_from_length]
  · intro c hc
    rw [line_loop_eq] at hc
    exact (hshape _ 0 c hc).1 rfl
  · intro k c hk hc
    rw [line_loop_eq] at hc
    exact (hshape _ k c hc).2.1 hk
  · intro c hc
    rw [line_loop_eq] at hc
    obtain ⟨k, hk⟩ := List.getElem?_of_mem hc
    exact (hshape _ k c hk).2.2
  · intro hnone
    rw [line_loop_eq, hnone, decode_from_none]
    refine ⟨rfl, ?_⟩
    generalize a.coordinates = cs
    cases cs with
    | nil => rfl
    | cons c cs =>
      simp only [open_path, draw, if_true, List.filterMap_cons, command.vertex]
      congr 1
      induction cs with
      | nil => rfl
      | cons d ds ih => simp [command.vertex, ih]

/-- C2, applied to the arc (0,0),(1,0),(0,1) of a topology without Transform. -/
theorem linestring_open_path_witness :
    ∃ a cont, example_topology_plain.arcs[(0 : Int).toNat]? = some a
      ∧ visit_linestring id example_topology_plain 7 ⟨0, none⟩
        = some { id := 7, paths := [⟨eGeomType.LineString, cont⟩],
                 puts := assign_properties id (none : Option (properties Int)) }
      ∧ cont.length = a.coordinates.length
      ∧ (∀ c, cont[0]? = some c → c.is_move_to = true)
      ∧ (∀ k c, 0 < k → cont[k]? = some c → c.is_line_to = true)
      ∧ (∀ c ∈ cont, c.is_close = false)
      ∧ (example_topology_plain.tr = none →
          cont = open_path a.coordinates ∧ cont.filterMap command.vertex = a.coordinates) :=
  linestring_open_path id example_topology_plain 7 ⟨0, none⟩ (by decide) (by decide)

/-- C3: the direction flag computed from a ring reference is `index < 0`, the arc index
is `-index - 1` when the flag is set and `index` otherwise; for `i ≥ 0` the references
`i` and `-(i+1)` give the same arc index `i` with opposite flags. -/
theorem resolve_ring_spec (index i : Int) (hi : 0 ≤ i) :
    (resolve_ring index).1 = decide (index < 0)
      ∧ (resolve_ring index).2 = (if index < 0 then -index - 1 else index)
      ∧ resolve_ring i = (false, i)
      ∧ resolve_ring (-(i + 1)) = (true, i) := by
  refine ⟨rfl, ?_, ?_, ?_⟩
  · rw [resolve_ring_eq]
  · have h : ¬ i < 0 := by omega
    rw [resolve_ring_eq]
    simp [h]
  · have h : -(i + 1) < 0 := by omega
    rw [resolve_ring_eq, if_pos h, decide_eq_true h]
    congr 1
    omega

/-- C3, at the references -3 and 2. -/
theorem resolve_ring_spec_witness :
    (resolve_ring (-3)).1 = decide ((-3 : Int) < 0)
      ∧ (resolve_ring (-3)).2 = (if (-3 : Int) < 0 then -(-3) - 1 else -3)
      ∧ resolve_ring 2 = (false, 2)
      ∧ resolve_ring (-(2 + 1)) = (true, 2) :=
  resolve_ring_spec (-3) 2 (by decide)

/-- C4: the MultiLineString visitor at the scenario of the spec (identity transform,
deltas (0,0),(1,0),(0,1), reference -1): the path is move-to(0,0), line-to(1,0),
line-to(1,1), the same as for the reference 0, and not its reverse
move-to(1,1), line-to(1,0), line-to(0,0). -/
theorem multi_linestring_negative_reference_not_reversed :
    visit_multi_linestring id example_topology 0 ⟨[-1], none⟩
        = some { id := 0,
                 paths := [⟨eGeomType.LineString,
                   [command.move_to 0 0, command.line_to 1 0, command.line_to 1 1]⟩],
                 puts := [] }
      ∧ visit_multi_linestring id example_topology 0 ⟨[-1], none⟩
        = visit_multi_linestring id example_topology 0 ⟨[0], none⟩
      ∧ visit_multi_linestring id example_topology 0 ⟨[-1], none⟩
        ≠ some { id := 0,
                 paths := [⟨eGeomType.LineString,
                   [command.move_to 1 1, command.line_to 1 0, command.line_to 0 0]⟩],
                 puts := [] } := by
  decide

/-- C5: the LineString visitor uses its ring reference as the arc index without resolving
the sign: for the reference -1 on a topology with one arc the access `arcs[-1]` is out of
range and no result is defined, while the MultiLineString visitor resolves the same
reference to arc 0. -/
theorem linestring_negative_reference_unresolved :
    arcs_at example_topology.arcs (-1) = none
      ∧ visit_linestring id example_topology 0 ⟨-1, none⟩ = none
      ∧ (visit_multi_linestring id example_topology 0 ⟨[-1], none⟩).isSome = true := by
  decide

/-- C6: for a MultiPolygon whose references are all in range with non-empty arcs, the
visitor returns a feature with one Polygon path per polygon, in order; the commands of a
path are those of its rings in order, and the commands of a ring are: the arcs of the
ring in order, each in traversal order (reversed when the reference is negative) with the
last coordinate of that run dropped, drawn with a move-to for the first vertex of the ring
and a line-to for every other one, followed by exactly one close-path. -/
theorem multi_polygon_ring_assembly {α : Type} [Zero α] [Add α] [Mul α]
    (tr_ : String → String) (topo : topology α) (feature_id : Nat)
    (multi_poly : multi_polygon α)
    (hok : ∀ poly ∈ multi_poly.polygons, ∀ ring ∈ poly, ∀ index ∈ ring,
      ref_ok topo index = true) :
    visit_multi_polygon tr_ topo feature_id multi_poly
      = some { id := feature_id,
               paths := multi_poly.polygons.map (fun poly =>
                 ⟨eGeomType.Polygon, (poly.map (ring_commands topo)).flatten⟩),
               puts := assign_properties tr_ multi_poly.props } := by
  unfold visit_multi_polygon
  rw [mapM_some (multi_polygon_member topo)
    (fun poly => ⟨eGeomType.Polygon, (poly.map (ring_commands topo)).flatten⟩)]
  intro poly hp
  unfold multi_polygon_member
  rw [foldlM_rings (multi_polygon_ring topo) (ring_commands topo) poly
    (fun ring hr cont => multi_polygon_ring_ok topo cont ring (hok poly hp ring hr))]
  simp

/-- C6, at a MultiPolygon of two polygons over the arcs (0,0),(1,0) and
(1,0),(1,1),(0,0): the ring [0, 1] and the ring [-2]. -/
theorem multi_polygon_ring_assembly_witness :
    visit_multi_polygon id example_topology_ring 0 ⟨[[[0, 1]], [[-2]]], none⟩
        = some { id := 0,
                 paths := [⟨eGeomType.Polygon,
                     [command.move_to 0 0, command.line_to 1 0, command.line_to 1 1,
                      command.close_path]⟩,
                   ⟨eGeomType.Polygon,
                     [command.move_to 0 0, command.line_to 1 1, command.close_path]⟩],
                 puts := [] }
      ∧ visit_multi_polygon id example_topology_ring 0 ⟨[[[0, 1]], [[-2]]], none⟩
        = some { id := 0,
                 paths := [[[0, 1]], [[-2]]].map (fun poly =>
                   ⟨eGeomType.Polygon,
                    (poly.map (ring_commands example_topology_ring)).flatten⟩),
                 puts := assign_properties id (none : Option (properties Int)) } :=
  ⟨by decide,
   multi_polygon_ring_assembly id example_topology_ring 0 ⟨[[[0, 1]], [[-2]]], none⟩
     (by decide)⟩

/-- C7, as stated, fails on the polygon scenario of the spec: arc 0 = (0,0),(1,0) ends
where arc 1 = (1,0),(1,1),(0,0) starts, and for the ring [0, 1] the MultiPolygon visitor
emits 3 vertices before the close-path, the Polygon visitor 2, not 2 + 3 - 1 = 4. -/
theorem ring_join_count_counterexample :
    ([⟨0, 0⟩, ⟨1, 0⟩] : List (coordinate Int)).getLast? = [⟨1, 0⟩, ⟨1, 1⟩, ⟨0, 0⟩].head?
      ∧ multi_polygon_ring example_topology_ring [] [0, 1]
        = some ([command.move_to 0 0, command.line_to 1 0, command.line_to 1 1]
                  ++ [command.close_path])
      ∧ polygon_ring simplify_2 example_topology_ring [] [0, 1]
        = some ([command.move_to 0 0, command.line_to 1 0] ++ [command.close_path])
      ∧ [command.move_to (0 : Int) 0, command.line_to 1 0, command.line_to 1 1].length
        ≠ 2 + 3 - 1
      ∧ [command.move_to (0 : Int) 0, command.line_to 1 0].length ≠ 2 + 3 - 1 := by
  decide

/-- C7, amended: for a ring built from two arcs A then B (references in range, arcs and
their simplified runs non-empty), the commands emitted before the close-path are all
vertices and their number is `len(A) + len(B) - 2` in the MultiPolygon visitor, and
`len(simplified A) + len(simplified B) - 2` in the Polygon visitor: the last coordinate of
each arc, in traversal order, is dropped. -/
theorem ring_two_arcs_vertex_count {α : Type} [Zero α] [Add α] [Mul α]
    (simplify : List (coordinate α) → List (coordinate α)) (topo : topology α)
    (i j : Int) (A B : arc α)
    (hA : arcs_at topo.arcs (resolve_ring i).2 = some A)
    (hB : arcs_at topo.arcs (resolve_ring j).2 = some B)
    (hAne : A.coordinates ≠ []) (hBne : B.coordinates ≠ [])
    (hsA : simplify (process_coords topo.tr A.coordinates) ≠ [])
    (hsB : simplify (process_coords topo.tr B.coordinates) ≠ []) :
    (∃ cont, multi_polygon_ring topo [] [i, j] = some (cont ++ [command.close_path])
        ∧ (∀ c ∈ cont, c.is_close = false)
        ∧ cont.length = A.coordinates.length + B.coordinates.length - 2)
      ∧ (∃ cont, polygon_ring simplify topo [] [i, j] = some (cont ++ [command.close_path])
        ∧ (∀ c ∈ cont, c.is_close = false)
        ∧ cont.length = (simplify (process_coords topo.tr A.coordinates)).length
            + (simplify (process_coords topo.tr B.coordinates)).length - 2) := by
  have hlA : A.coordinates.length ≠ 0 := by simpa using hAne
  have hlB : B.coordinates.length ≠ 0 := by simpa using hBne
  have hlsA : (simplify (process_coords topo.tr A.coordinates)).length ≠ 0 := by
    simpa using hsA
  have hlsB : (simplify (process_coords topo.tr B.coordinates)).length ≠ 0 := by
    simpa using hsB
  have hok : ∀ index ∈ [i, j], ref_ok topo index = true := by
    intro index hi
    simp only [List.mem_cons, List.mem_singleton, List.not_mem_nil, or_false] at hi
    rcases hi with hi | hi
    · subst hi
      simp [ref_ok, hA, hAne]
    · subst hi
      simp [ref_ok, hB, hBne]
  have hoks : ∀ index ∈ [i, j], simplified_ref_ok simplify topo index = true := by
    intro index hi
    simp only [List.mem_cons, List.mem_singleton, List.not_mem_nil, or_false] at hi
    rcases hi with hi | hi
    · subst hi
      simp [simplified_ref_ok, hA, hsA]
    · subst hi
      simp [simplified_ref_ok, hB, hsB]
  constructor
  · refine ⟨open_path
      ([i, j].map (fun index => (arc_traversal topo index).dropLast)).flatten, ?_, ?_, ?_⟩
    · rw [multi_polygon_ring_ok topo [] [i, j] hok]
      simp [ring_commands]
    · intro c hc
      exact not_close_of_mem_draw true _ c hc
    · simp only [open_path, draw_length, List.map_cons, List.map_nil, List.flatten_cons,
        List.flatten_nil, List.append_nil, List.length_append, List.length_dropLast,
        arc_traversal_length topo i A hA, arc_traversal_length topo j B hB]
      omega
  · refine ⟨open_path
      ([i, j].map (fun index => (simplified_traversal simplify topo index).dropLast)).flatten,
      ?_, ?_, ?_⟩
    · rw [polygon_ring_ok simplify topo [] [i, j] hoks]
      simp [simplified_ring_commands]
    · intro c hc
      exact not_close_of_mem_draw true _ c hc
    · simp only [open_path, draw_length, List.map_cons, List.map_nil, List.flatten_cons,
        List.flatten_nil, List.append_nil, List.length_append, List.length_dropLast,
        simplified_traversal_length simplify topo i A hA,
        simplified_traversal_length simplify topo j B hB]
      omega

/-- C7 amended, at the polygon scenario of the spec, ring [0, 1]. -/
theorem ring_two_arcs_vertex_count_witness :
    (∃ cont, multi_polygon_ring example_topology_ring [] [0, 1]
          = some (cont ++ [command.close_path])
        ∧ (∀ c ∈ cont, c.is_close = false)
        ∧ cont.length = 2 + 3 - 2)
      ∧ (∃ cont, polygon_ring simplify_2 example_topology_ring [] [0, 1]
          = some (cont ++ [command.close_path])
        ∧ (∀ c ∈ cont, c.is_close = false)
        ∧ cont.length = (simplify_2 (process_coords none [⟨0, 0⟩, ⟨1, 0⟩])).length
            + (simplify_2 (process_coords none [⟨1, 0⟩, ⟨1, 1⟩, ⟨0, 0⟩])).length - 2) :=
  ring_two_arcs_vertex_count simplify_2 example_topology_ring 0 1
    ⟨[⟨0, 0⟩, ⟨1, 0⟩]⟩ ⟨[⟨1, 0⟩, ⟨1, 1⟩, ⟨0, 0⟩]⟩
    (by decide) (by decide) (by decide) (by decide) (by decide) (by decide)

/-- C8: the MultiPolygon visitor has no simplification step, the Polygon visitor has one
(lines 240-242).  For rings whose references are in range with non-empty arcs the two
give different draw commands: over the polygon scenario of the spec the rings [[0, 1]]
keep the vertex (1,1) in the MultiPolygon and lose it in the Polygon, and over the arc
(0,0),(1,0),(2,0) the ring [0] keeps the middle point (1,0), which lies on the line
joining its neighbours, in the MultiPolygon and loses it in the Polygon. -/
theorem multi_polygon_not_simplified :
    ([0, 1].all (fun index => ref_ok example_topology_ring index)) = true
      ∧ visit_multi_polygon id example_topology_ring 0 ⟨[[[0, 1]]], none⟩
        = some { id := 0,
                 paths := [⟨eGeomType.Polygon,
                   [command.move_to 0 0, command.line_to 1 0, command.line_to 1 1,
                    command.close_path]⟩],
                 puts := [] }
      ∧ visit_polygon simplify_2 id example_topology_ring 0 ⟨[[0, 1]], none⟩
        = some { id := 0,
                 paths := [⟨eGeomType.Polygon,
                   [command.move_to 0 0, command.line_to 1 0, command.close_path]⟩],
                 puts := [] }
      ∧ visit_multi_polygon id example_topology_ring 0 ⟨[[[0, 1]]], none⟩
        ≠ visit_polygon simplify_2 id example_topology_ring 0 ⟨[[0, 1]], none⟩
      ∧ ref_ok example_topology_collinear 0 = true
      ∧ visit_multi_polygon id example_topology_collinear 0 ⟨[[[0]]], none⟩
        = some { id := 0,
                 paths := [⟨eGeomType.Polygon,
                   [command.move_to 0 0, command.line_to 1 0, command.close_path]⟩],
                 puts := [] }
      ∧ visit_polygon simplify_2 id example_topology_collinear 0 ⟨[[0]], none⟩
        = some { id := 0,
                 paths := [⟨eGeomType.Polygon, [command.move_to 0 0, command.close_path]⟩],
                 puts := [] }
      ∧ visit_multi_polygon id example_topology_collinear 0 ⟨[[[0]]], none⟩
        ≠ visit_polygon simplify_2 id example_topology_collinear 0 ⟨[[0]], none⟩ := by
  decide

/-- The simplification step is the only difference between the two visitors: on rings
where simplifying changes no decoded run, the MultiPolygon made of one polygon and the
Polygon with the same rings give the same result. -/
theorem multi_polygon_single_eq_polygon {α : Type} [Zero α] [Add α] [Mul α]
    (simplify : List (coordinate α) → List (coordinate α)) (tr_ : String → String)
    (topo : topology α) (feature_id : Nat) (rs : List (List index_type))
    (props : Option (properties α))
    (hfix : ∀ ring ∈ rs, ∀ index ∈ ring, ∀ a,
      arcs_at topo.arcs (resolve_ring index).2 = some a →
        simplify (process_coords topo.tr a.coordinates)
          = process_coords topo.tr a.coordinates) :
    visit_multi_polygon tr_ topo feature_id ⟨[rs], props⟩
      = visit_polygon simplify tr_ topo feature_id ⟨rs, props⟩ := by
  have harc : ∀ ring ∈ rs, ∀ index ∈ ring, ∀ s,
      multi_polygon_arc topo s index = polygon_arc simplify topo s index := by
    intro ring hr index hi s
    unfold multi_polygon_arc polygon_arc
    dsimp only
    cases ha : arcs_at topo.arcs (resolve_ring index).2 with
    | none => rfl
    | some a =>
      dsimp only
      rw [hfix ring hr index hi a ha]
  have hring : ∀ ring ∈ rs, ∀ cont,
      multi_polygon_ring topo cont ring = polygon_ring simplify topo cont ring := by
    intro ring hr cont
    unfold multi_polygon_ring polygon_ring
    rw [foldlM_option_congr (multi_polygon_arc topo) (polygon_arc simplify topo) ring
      (harc ring hr)]
  have hrings : rs.foldlM (multi_polygon_ring topo) []
      = rs.foldlM (polygon_ring simplify topo) [] :=
    foldlM_option_congr _ _ rs hring []
  unfold visit_multi_polygon visit_polygon
  simp only [List.mapM_cons, List.mapM_nil, multi_polygon_member, hrings]
  cases rs.foldlM (polygon_ring simplify topo) [] with
  | none => rfl
  | some cont => rfl

/-- C9, as stated, fails: for the Polygon with the two rings [0, 1] and [0, 1] over the
polygon scenario of the spec the feature carries one path, which holds both closed rings,
not two paths. -/
theorem polygon_paths_counterexample :
    visit_polygon simplify_2 id example_topology_ring 0 ⟨[[0, 1], [0, 1]], none⟩
        = some { id := 0,
                 paths := [⟨eGeomType.Polygon,
                   [command.move_to 0 0, command.line_to 1 0, command.close_path,
                    command.move_to 0 0, command.line_to 1 0, command.close_path]⟩],
                 puts := [] }
      ∧ ¬ ∃ f, visit_polygon simplify_2 id example_topology_ring 0 ⟨[[0, 1], [0, 1]], none⟩
            = some f
          ∧ f.paths.length = ([[0, 1], [0, 1]] : List (List index_type)).length := by
  have h : visit_polygon simplify_2 id example_topology_ring 0 ⟨[[0, 1], [0, 1]], none⟩
      = some { id := 0,
               paths := [⟨eGeomType.Polygon,
                 [command.move_to 0 0, command.line_to 1 0, command.close_path,
                  command.move_to 0 0, command.line_to 1 0, command.close_path]⟩],
               puts := [] } := by decide
  refine ⟨h, ?_⟩
  rintro ⟨f, hf, hlen⟩
  rw [h] at hf
  cases hf
  simp at hlen

/-- C9, amended: for a Polygon with k rings (references in range, simplified runs
non-empty) the emitted feature carries exactly one path; that path holds the k rings in
ring order, each as the vertices of the ring followed by a close-path, so it has exactly k
close-path commands and every ring ends in one. -/
theorem polygon_single_path {α : Type} [Zero α] [Add α] [Mul α]
    (simplify : List (coordinate α) → List (coordinate α)) (tr_ : String → String)
    (topo : topology α) (feature_id : Nat) (poly : polygon α)
    (hok : ∀ ring ∈ poly.rings, ∀ index ∈ ring,
      simplified_ref_ok simplify topo index = true) :
    visit_polygon simplify tr_ topo feature_id poly
        = some { id := feature_id,
                 paths := [⟨eGeomType.Polygon,
                   (poly.rings.map (simplified_ring_commands simplify topo)).flatten⟩],
                 puts := assign_properties tr_ poly.props }
      ∧ (poly.rings.map (simplified_ring_commands simplify topo)).flatten.countP
          command.is_close = poly.rings.length
      ∧ ∀ ring ∈ poly.rings,
          (simplified_ring_commands simplify topo ring).getLast? = some command.close_path := by
  refine ⟨?_, countP_close_rings simplify topo poly.rings, ?_⟩
  · unfold visit_polygon
    rw [foldlM_rings (polygon_ring simplify topo) (simplified_ring_commands simplify topo)
      poly.rings (fun ring hr cont => polygon_ring_ok simplify topo cont ring (hok ring hr))]
    simp
  · intro ring _
    simp [simplified_ring_commands]

/-- C9 amended, at the Polygon with the rings [0, 1] and [-1] of the polygon scenario. -/
theorem polygon_single_path_witness :
    visit_polygon simplify_2 id example_topology_ring 3 ⟨[[0, 1], [-1]], none⟩
        = some { id := 3,
                 paths := [⟨eGeomType.Polygon,
                   ([[0, 1], [-1]].map
                     (simplified_ring_commands simplify_2 example_topology_ring)).flatten⟩],
                 puts := assign_properties id (none : Option (properties Int)) }
      ∧ ([[0, 1], [-1]].map
            (simplified_ring_commands simplify_2 example_topology_ring)).flatten.countP
          command.is_close = ([[0, 1], [-1]] : List (List index_type)).length
      ∧ ∀ ring ∈ ([[0, 1], [-1]] : List (List index_type)),
          (simplified_ring_commands simplify_2 example_topology_ring ring).getLast?
            = some command.close_path :=
  polygon_single_path simplify_2 id example_topology_ring 3 ⟨[[0, 1], [-1]], none⟩
    (by decide)

/-- C10: the Point visitor returns a feature with exactly one path holding exactly one
command, a move-to at (x, y) when the topology has no Transform and at
(x * scale_x + translate_x, y * scale_y + translate_y) when it has one; the point
(10, 20) with the property name = A and no Transform gives the single path
[move-to(10, 20)] and the property name = A. -/
theorem visit_point_spec {α : Type} [Add α] [Mul α] (tr_ : String → String)
    (geometries : List (geometry α)) (arcs : List (arc α)) (t : transform α)
    (feature_id : Nat) (pt : point α) :
    visit_point tr_ ⟨geometries, arcs, none⟩ feature_id pt
        = { id := feature_id,
            paths := [⟨eGeomType.Point, [command.move_to pt.coord.x pt.coord.y]⟩],
            puts := assign_properties tr_ pt.props }
      ∧ visit_point tr_ ⟨geometries, arcs, some t⟩ feature_id pt
        = { id := feature_id,
            paths := [⟨eGeomType.Point,
              [command.move_to (pt.coord.x * t.scale_x + t.translate_x)
                (pt.coord.y * t.scale_y + t.translate_y)]⟩],
            puts := assign_properties tr_ pt.props }
      ∧ visit_point id (⟨[], [], none⟩ : topology Int) 0
          ⟨⟨10, 20⟩, some [("name", value.str "A")]⟩
        = { id := 0,
            paths := [⟨eGeomType.Point, [command.move_to 10 20]⟩],
            puts := [("name", value.str "A")] } :=
  ⟨rfl, rfl, by decide⟩

/-! ## Lemmas on the dispatch and the featureset -/

section Featureset

variable {α : Type} [Zero α] [Add α] [Mul α]

theorem feature_generator_some (simplify : List (coordinate α) → List (coordinate α))
    (tr_ : String → String) (topo : topology α) (feature_id : Nat) (g : geometry α)
    (f : feature_impl α)
    (h : feature_generator simplify tr_ topo feature_id g = some (some f)) :
    f.id = feature_id ∧ f.puts = assign_properties tr_ g.props := by
  cases g with
  | invalid => simp [feature_generator] at h
  | point g =>
    simp only [feature_generator, Option.some.injEq] at h
    subst h
    exact ⟨rfl, rfl⟩
  | multi_point g =>
    simp only [feature_generator, Option.some.injEq] at h
    subst h
    exact ⟨rfl, rfl⟩
  | linestring g =>
    simp only [feature_generator, visit_linestring] at h
    split at h
    · simp at h
    · simp only [Option.map_some', Option.some.injEq] at h
      subst h
      exact ⟨rfl, rfl⟩
  | multi_linestring g =>
    simp only [feature_generator, visit_multi_linestring] at h
    split at h
    · simp at h
    · simp only [Option.map_some', Option.some.injEq] at h
      subst h
      exact ⟨rfl, rfl⟩
  | polygon g =>
    simp only [feature_generator, visit_polygon] at h
    split at h
    · simp at h
    · simp only [Option.map_some', Option.some.injEq] at h
      subst h
      exact ⟨rfl, rfl⟩
  | multi_polygon g =>
    simp only [feature_generator, visit_multi_polygon] at h
    split at h
    · simp at h
    · simp only [Option.map_some', Option.some.injEq] at h
      subst h
      exact ⟨rfl, rfl⟩

theorem next_of_index_in_range (simplify : List (coordinate α) → List (coordinate α))
    (tr_ : String → String) (fs : topojson_featureset α) (index : Nat) (geom : geometry α)
    (hi : fs.index_array[fs.index_itr]? = some index)
    (hg : fs.topo.geometries[index]? = some geom) :
    next simplify tr_ fs
      = (feature_generator simplify tr_ fs.topo fs.feature_id geom,
          { fs with index_itr := fs.index_itr + 1, feature_id := fs.feature_id + 1 }) := by
  simp only [next, hi, hg]

theorem next_of_index_out_of_range (simplify : List (coordinate α) → List (coordinate α))
    (tr_ : String → String) (fs : topojson_featureset α) (index : Nat)
    (hi : fs.index_array[fs.index_itr]? = some index)
    (hg : fs.topo.geometries[index]? = none) :
    next simplify tr_ fs = (some none, { fs with index_itr := fs.index_itr + 1 }) := by
  simp only [next, hi, hg]

theorem next_of_exhausted (simplify : List (coordinate α) → List (coordinate α))
    (tr_ : String → String) (fs : topojson_featureset α)
    (hi : fs.index_array[fs.index_itr]? = none) :
    next simplify tr_ fs = (some none, fs) := by
  simp only [next, hi]

theorem next_some_feature (simplify : List (coordinate α) → List (coordinate α))
    (tr_ : String → String) (fs : topojson_featureset α) (f : feature_impl α)
    (h : (next simplify tr_ fs).1 = some (some f)) :
    f.id = fs.feature_id ∧ (next simplify tr_ fs).2.feature_id = fs.feature_id + 1 := by
  cases hi : fs.index_array[fs.index_itr]? with
  | none =>
    rw [next_of_exhausted simplify tr_ fs hi] at h
    simp at h
  | some index =>
    cases hg : fs.topo.geometries[index]? with
    | none =>
      rw [next_of_index_out_of_range simplify tr_ fs index hi hg] at h
      simp at h
    | some geom =>
      rw [next_of_index_in_range simplify tr_ fs index geom hi hg] at h ⊢
      exact ⟨(feature_generator_some simplify tr_ fs.topo fs.feature_id geom f h).1, rfl⟩

theorem after_calls_succ (simplify : List (coordinate α) → List (coordinate α))
    (tr_ : String → String) (k : Nat) (fs : topojson_featureset α) :
    after_calls simplify tr_ (k + 1) fs
      = (next simplify tr_ (after_calls simplify tr_ k fs)).2 := by
  induction k generalizing fs with
  | zero => rfl
  | succ k ih =>
    rw [after_calls, ih]
    rfl

theorem after_calls_state (simplify : List (coordinate α) → List (coordinate α))
    (tr_ : String → String) (k : Nat) (fs : topojson_featureset α)
    (hle : fs.index_itr ≤ fs.index_array.length) :
    after_calls simplify tr_ k fs
      = { fs with
          index_itr := min (fs.index_itr + k) fs.index_array.length,
          feature_id := fs.feature_id
            + ((fs.index_array.drop fs.index_itr).take k).countP
                (fun index => decide (index < fs.topo.geometries.length)) } := by
  induction k generalizing fs with
  | zero =>
    cases fs with
    | mk topo index_array index_itr feature_id =>
      simp only [after_calls, List.take_zero, List.countP_nil, Nat.add_zero,
        topojson_featureset.mk.injEq, true_and]
      simp only at hle
      exact ⟨(Nat.min_eq_left hle).symm, trivial⟩
  | succ k ih =>
    cases fs with
    | mk topo index_array index_itr feature_id =>
      simp only at hle
      rw [after_calls]
      by_cases hlt : index_itr < index_array.length
      · have hi : index_array[index_itr]? = some index_array[index_itr] :=
          List.getElem?_eq_getElem hlt
        have hdrop : index_array.drop index_itr
            = index_array[index_itr] :: index_array.drop (index_itr + 1) :=
          List.drop_eq_getElem_cons hlt
        by_cases hr : index_array[index_itr] < topo.geometries.length
        · have hg : topo.geometries[index_array[index_itr]]?
              = some topo.geometries[index_array[index_itr]] :=
            List.getElem?_eq_getElem hr
          rw [next_of_index_in_range simplify tr_ _ _ _ hi hg, ih _ (by simpa using hlt)]
          simp only [hdrop, List.take_succ_cons, List.countP_cons, hr, decide_True, if_true,
            topojson_featureset.mk.injEq, true_and]
          omega
        · have hg : topo.geometries[index_array[index_itr]]? = none :=
            List.getElem?_eq_none (by omega)
          rw [next_of_index_out_of_range simplify tr_ _ _ hi hg, ih _ (by simpa using hlt)]
          simp only [hdrop, List.take_succ_cons, List.countP_cons, hr, decide_False,
            topojson_featureset.mk.injEq, true_and]
          simp
          omega
      · have hi : index_array[index_itr]? = none := List.getElem?_eq_none (by omega)
        rw [next_of_exhausted simplify tr_ _ hi, ih _ (by simpa using hle)]
        have hnil : index_array.drop index_itr = [] := List.drop_eq_nil_of_le (by omega)
        simp only [hnil, List.take_nil, List.countP_nil, topojson_featureset.mk.injEq,
          true_and]
        have hge : index_array.length ≤ index_itr := by omega
        exact ⟨by rw [Nat.min_eq_right (by omega), Nat.min_eq_right (by omega)], trivial⟩

end Featureset

/-! ## The claims on the point sets, the dispatch and the featureset -/

/-- C11: the MultiPoint visitor returns a feature with one path per point, in the order
of the points; the i-th path holds the single command move-to at the coordinate of the
i-th point, taken as it is without a Transform and scaled and translated with one; no
path depends on another point (nothing is accumulated). -/
theorem visit_multi_point_spec {α : Type} [Add α] [Mul α] (tr_ : String → String)
    (geometries : List (geometry α)) (arcs : List (arc α)) (t : transform α)
    (feature_id : Nat) (multi_pt : multi_point α) :
    visit_multi_point tr_ ⟨geometries, arcs, none⟩ feature_id multi_pt
        = { id := feature_id,
            paths := multi_pt.points.map (fun pt =>
              ⟨eGeomType.Point, [command.move_to pt.x pt.y]⟩),
            puts := assign_properties tr_ multi_pt.props }
      ∧ visit_multi_point tr_ ⟨geometries, arcs, some t⟩ feature_id multi_pt
        = { id := feature_id,
            paths := multi_pt.points.map (fun pt =>
              ⟨eGeomType.Point,
                [command.move_to (pt.x * t.scale_x + t.translate_x)
                  (pt.y * t.scale_y + t.translate_y)]⟩),
            puts := assign_properties tr_ multi_pt.props }
      ∧ (visit_multi_point tr_ ⟨geometries, arcs, none⟩ feature_id multi_pt).paths.length
          = multi_pt.points.length
      ∧ (visit_multi_point tr_ ⟨geometries, arcs, some t⟩ feature_id multi_pt).paths.length
          = multi_pt.points.length
      ∧ visit_multi_point id (⟨[], [], some ⟨2, 3, 1, 1⟩⟩ : topology Int) 0
          ⟨[⟨1, 1⟩, ⟨1, 1⟩, ⟨0, 5⟩], none⟩
        = { id := 0,
            paths := [⟨eGeomType.Point, [command.move_to 3 4]⟩,
                      ⟨eGeomType.Point, [command.move_to 3 4]⟩,
                      ⟨eGeomType.Point, [command.move_to 1 16]⟩],
            puts := [] } := by
  refine ⟨rfl, rfl, ?_, ?_, by decide⟩
  · simp [visit_multi_point]
  · simp [visit_multi_point]

/-- C12, as stated, fails: for a geometry that holds none of the six kinds the visitor
returns the null pointer, not an empty feature. -/
theorem unsupported_variant_counterexample :
    feature_generator simplify_2 id example_topology 0 geometry.invalid = some none
      ∧ feature_generator simplify_2 id example_topology 0 geometry.invalid
        ≠ some (some { id := 0, paths := [], puts := [] }) := by
  decide

/-- C12, amended: for every geometry whose variant is none of Point, MultiPoint,
LineString, MultiLineString, Polygon, MultiPolygon, the visitor returns the null
sentinel `feature_ptr()`: no feature is made. -/
theorem unsupported_variant_null {α : Type} [Zero α] [Add α] [Mul α]
    (simplify : List (coordinate α) → List (coordinate α)) (tr_ : String → String)
    (topo : topology α) (feature_id : Nat) :
    feature_generator simplify tr_ topo feature_id geometry.invalid = some none :=
  rfl

/-- C13, as stated, fails: with the index array [5] against a topology of 3 geometries
the first call of next() consumes the index 5 (the cursor moves to 1) and the counter
stays at 0 instead of becoming 1. -/
theorem feature_id_counter_counterexample :
    (make_featureset example_topology_points [5]).feature_id = 0
      ∧ (after_calls simplify_2 id 1 (make_featureset example_topology_points [5])).index_itr = 1
      ∧ (after_calls simplify_2 id 1 (make_featureset example_topology_points [5])).feature_id = 0
      ∧ (after_calls simplify_2 id 1 (make_featureset example_topology_points [5])).feature_id
          ≠ 1 := by
  decide

/-- C13, amended: the counter of a Featureset starts at 0 and increases by exactly one on
every next() call that consumes an index below len(geometries); a call that consumes an
index at or above len(geometries) leaves it unchanged.  After k calls the cursor is at
min(k, n) and the counter equals the number of indices below len(geometries) among the
first k of the index array. -/
theorem feature_id_counter_counts_visits {α : Type} [Zero α] [Add α] [Mul α]
    (simplify : List (coordinate α) → List (coordinate α)) (tr_ : String → String)
    (topo : topology α) (index_array : List Nat) (k : Nat) :
    (make_featureset topo index_array).feature_id = 0
      ∧ (after_calls simplify tr_ k (make_featureset topo index_array)).index_itr
          = min k index_array.length
      ∧ (after_calls simplify tr_ k (make_featureset topo index_array)).feature_id
          = (index_array.take k).countP (fun index => decide (index < topo.geometries.length)) := by
  have h := after_calls_state simplify tr_ k (make_featureset topo index_array)
    (Nat.zero_le _)
  rw [h]
  simp [make_featureset]

/-- C14: when each of the first N calls of next() on a freshly constructed Featureset
returns a feature (not the null sentinel), the feature returned by call number i,
counting from 0, has id i. -/
theorem feature_ids_sequential {α : Type} [Zero α] [Add α] [Mul α]
    (simplify : List (coordinate α) → List (coordinate α)) (tr_ : String → String)
    (topo : topology α) (index_array : List Nat) (N : Nat)
    (h : ∀ i, i < N →
      ∃ f, nth_result simplify tr_ (make_featureset topo index_array) i = some (some f)) :
    ∀ i, i < N →
      ∃ f, nth_result simplify tr_ (make_featureset topo index_array) i = some (some f)
        ∧ f.id = i := by
  have hcount : ∀ i, i ≤ N →
      (after_calls simplify tr_ i (make_featureset topo index_array)).feature_id = i := by
    intro i
    induction i with
    | zero => intro _; rfl
    | succ i ih =>
      intro hi
      obtain ⟨f, hf⟩ := h i (by omega)
      rw [after_calls_succ, (next_some_feature simplify tr_ _ f hf).2, ih (by omega)]
  intro i hi
  obtain ⟨f, hf⟩ := h i hi
  refine ⟨f, hf, ?_⟩
  rw [(next_some_feature simplify tr_ _ f hf).1, hcount i (by omega)]

/-- C14, on three Point geometries visited in the order 1, 0, 2: the three calls return
features with the ids 0, 1, 2. -/
theorem feature_ids_sequential_witness :
    (∃ f, nth_result simplify_2 id (make_featureset example_topology_points [1, 0, 2]) 0
          = some (some f) ∧ f.id = 0)
      ∧ (∃ f, nth_result simplify_2 id (make_featureset example_topology_points [1, 0, 2]) 1
          = some (some f) ∧ f.id = 1)
      ∧ (∃ f, nth_result simplify_2 id (make_featureset example_topology_points [1, 0, 2]) 2
          = some (some f) ∧ f.id = 2) := by
  have hall : ∀ i, i < 3 →
      ∃ f, nth_result simplify_2 id (make_featureset example_topology_points [1, 0, 2]) i
        = some (some f) := by
    intro i hi
    have hcases : i = 0 ∨ i = 1 ∨ i = 2 := by omega
    rcases hcases with h0 | h1 | h2
    · subst h0
      exact ⟨_, rfl⟩
    · subst h1
      exact ⟨_, rfl⟩
    · subst h2
      exact ⟨_, rfl⟩
  exact ⟨feature_ids_sequential simplify_2 id example_topology_points [1, 0, 2] 3 hall 0
      (by decide),
    feature_ids_sequential simplify_2 id example_topology_points [1, 0, 2] 3 hall 1
      (by decide),
    feature_ids_sequential simplify_2 id example_topology_points [1, 0, 2] 3 hall 2
      (by decide)⟩

/-- C15, as stated, fails: with the index array [5] against a topology of 3 geometries
the first call of next() returns the null pointer, not an empty feature with id 0. -/
theorem out_of_range_index_counterexample :
    example_topology_points.geometries.length = 3
      ∧ (next simplify_2 id (make_featureset example_topology_points [5])).1 = some none
      ∧ (next simplify_2 id (make_featureset example_topology_points [5])).1
          ≠ some (some { id := 0, paths := [], puts := [] }) := by
  decide

/-- C15, amended: the next() call that consumes an index at or above len(geometries)
returns the null sentinel (no feature is made); it moves the cursor by one position and
leaves the feature-id counter, the index array and the topology as they were. -/
theorem out_of_range_index_null {α : Type} [Zero α] [Add α] [Mul α]
    (simplify : List (coordinate α) → List (coordinate α)) (tr_ : String → String)
    (fs : topojson_featureset α) (index : Nat)
    (hi : fs.index_array[fs.index_itr]? = some index)
    (hr : fs.topo.geometries.length ≤ index) :
    next simplify tr_ fs
      = (some none,
          { topo := fs.topo, index_array := fs.index_array,
            index_itr := fs.index_itr + 1, feature_id := fs.feature_id }) :=
  next_of_index_out_of_range simplify tr_ fs index hi (List.getElem?_eq_none hr)

/-- C15 amended, at the index array [5] against 3 geometries: the first call returns the
null sentinel with the counter still 0, and the cursor is then exhausted: the second call
returns the null sentinel and changes nothing. -/
theorem out_of_range_index_null_witness :
    next simplify_2 id (make_featureset example_topology_points [5])
        = (some none,
            { topo := example_topology_points, index_array := [5],
              index_itr := 0 + 1, feature_id := 0 })
      ∧ next simplify_2 id
          { topo := example_topology_points, index_array := [5],
            index_itr := 1, feature_id := 0 }
        = (some none,
            { topo := example_topology_points, index_array := [5],
              index_itr := 1, feature_id := 0 }) :=
  ⟨out_of_range_index_null simplify_2 id (make_featureset example_topology_points [5]) 5
     rfl (by decide),
   rfl⟩

/-- C16: on a Featureset over an index array of length n (n = 0 included), the cursor
after k calls of next() is at min(k, n); a call made after k calls with k smaller than n
finds the cursor at k and leaves it at k + 1; every call after the first n calls returns
the null sentinel and leaves the whole state, cursor and feature-id counter included, as
it was after the first n calls. -/
theorem cursor_advances_then_exhausted {α : Type} [Zero α] [Add α] [Mul α]
    (simplify : List (coordinate α) → List (coordinate α)) (tr_ : String → String)
    (topo : topology α) (index_array : List Nat) (k j : Nat) :
    (after_calls simplify tr_ k (make_featureset topo index_array)).index_itr
        = min k index_array.length
      ∧ (k < index_array.length →
          (after_calls simplify tr_ k (make_featureset topo index_array)).index_itr = k
            ∧ (after_calls simplify tr_ (k + 1)
                (make_featureset topo index_array)).index_itr = k + 1)
      ∧ nth_result simplify tr_ (make_featureset topo index_array) (index_array.length + j)
          = some none
      ∧ after_calls simplify tr_ (index_array.length + j + 1) (make_featureset topo index_array)
          = after_calls simplify tr_ (index_array.length + j) (make_featureset topo index_array)
      ∧ after_calls simplify tr_ (index_array.length + j) (make_featureset topo index_array)
          = after_calls simplify tr_ index_array.length (make_featureset topo index_array)
      ∧ (after_calls simplify tr_ (index_array.length + j)
          (make_featureset topo index_array)).index_itr = index_array.length := by
  have hstate := fun m => after_calls_state simplify tr_ m (make_featureset topo index_array)
    (Nat.zero_le _)
  have hend : (after_calls simplify tr_ (index_array.length + j)
      (make_featureset topo index_array)).index_array[(after_calls simplify tr_
        (index_array.length + j) (make_featureset topo index_array)).index_itr]? = none := by
    rw [hstate]
    apply List.getElem?_eq_none
    simp [make_featureset]
  have hitr : ∀ m, (after_calls simplify tr_ m (make_featureset topo index_array)).index_itr
      = min m index_array.length := by
    intro m
    rw [hstate]
    simp only [make_featureset, Nat.zero_add]
  refine ⟨hitr k, ?_, ?_, ?_, ?_, ?_⟩
  · intro hk
    rw [hitr k, hitr (k + 1)]
    exact ⟨Nat.min_eq_left (by omega), Nat.min_eq_left (by omega)⟩
  · rw [nth_result, next_of_exhausted simplify tr_ _ hend]
  · rw [after_calls_succ, next_of_exhausted simplify tr_ _ hend]
  · rw [hstate (index_array.length + j), hstate index_array.length]
    simp only [make_featureset, Nat.zero_add, List.drop_zero,
      List.take_of_length_le (Nat.le_add_right index_array.length j),
      List.take_of_length_le (Nat.le_refl index_array.length),
      Nat.min_eq_right (Nat.le_add_right index_array.length j), Nat.min_self]
  · rw [hitr]
    exact Nat.min_eq_right (Nat.le_add_right _ _)

/-- C16, on the index array [1, 0, 2] over three Point geometries (the second call moves
the cursor from 1 to 2, the calls from number 3 on return the null sentinel and change
nothing) and on the empty index array (the very first call returns the null sentinel
and changes nothing). -/
theorem cursor_advances_then_exhausted_witness :
    ((after_calls simplify_2 id 1
          (make_featureset example_topology_points [1, 0, 2])).index_itr = 1
      ∧ (after_calls simplify_2 id (1 + 1)
          (make_featureset example_topology_points [1, 0, 2])).index_itr = 1 + 1)
      ∧ nth_result simplify_2 id (make_featureset example_topology_points [1, 0, 2])
          ([1, 0, 2].length + 4) = some none
      ∧ after_calls simplify_2 id ([1, 0, 2].length + 4 + 1)
          (make_featureset example_topology_points [1, 0, 2])
        = after_calls simplify_2 id ([1, 0, 2].length + 4)
          (make_featureset example_topology_points [1, 0, 2])
      ∧ nth_result simplify_2 id (make_featureset example_topology_points [])
          (([] : List Nat).length + 0) = some none
      ∧ after_calls simplify_2 id (([] : List Nat).length + 0 + 1)
          (make_featureset example_topology_points [])
        = after_calls simplify_2 id (([] : List Nat).length + 0)
          (make_featureset example_topology_points [])
      ∧ (after_calls simplify_2 id (([] : List Nat).length + 0)
          (make_featureset example_topology_points [])).index_itr = ([] : List Nat).length :=
  ⟨(cursor_advances_then_exhausted simplify_2 id example_topology_points [1, 0, 2] 1 4).2.1
      (by decide),
    (cursor_advances_then_exhausted simplify_2 id example_topology_points [1, 0, 2] 1 4).2.2.1,
    (cursor_advances_then_exhausted simplify_2 id example_topology_points [1, 0, 2]
      1 4).2.2.2.1,
    (cursor_advances_then_exhausted simplify_2 id example_topology_points [] 0 0).2.2.1,
    (cursor_advances_then_exhausted simplify_2 id example_topology_points [] 0 0).2.2.2.1,
    (cursor_advances_then_exhausted simplify_2 id example_topology_points []
      0 0).2.2.2.2.2⟩

/-! ## Properties, arc references out of range, delta encoding -/

theorem foldl_put_new_append {α : Type} (l m : List (String × value α))
    (hnodup : (l.map Prod.fst).Nodup)
    (hdisj : ∀ p ∈ l, ∀ q ∈ m, q.1 ≠ p.1) :
    l.foldl (fun acc p => put_new acc p.1 p.2) m = m ++ l := by
  induction l generalizing m with
  | nil => simp
  | cons p ps ih =>
    have hnew : m.any (fun q => q.1 == p.1) = false := by
      rw [List.any_eq_false]
      intro q hq
      simpa using hdisj p (List.mem_cons_self _ _) q hq
    rw [List.map_cons, List.nodup_cons] at hnodup
    rw [List.foldl_cons]
    have hput : put_new m p.1 p.2 = m ++ [p] := by
      simp [put_new, hnew]
    rw [hput, ih (m ++ [p]) hnodup.2]
    · simp
    · intro r hr q hq
      rw [List.mem_append, List.mem_singleton] at hq
      rcases hq with hq | hq
      · exact hdisj r (List.mem_cons_of_mem _ hr) q hq
      · subst hq
        intro heq
        exact hnodup.1 (List.mem_map.mpr ⟨r, hr, heq.symm⟩)

theorem c_str_of_no_nul (val : String) (h : ∀ c ∈ val.data, c ≠ Char.ofNat 0) :
    c_str val = val := by
  unfold c_str
  have htake : val.data.takeWhile (fun c => c != Char.ofNat 0) = val.data := by
    rw [List.takeWhile_eq_self_iff]
    intro c hc
    simpa using h c hc
  rw [htake]

/-- C17, as stated, fails for a string with an embedded NUL character: the transcoder is
called on `val.c_str()`, so for the value "a", NUL, "b" and a transcoder that appends a
star the feature receives "a*", not the transcoded whole string. -/
theorem properties_transcode_counterexample :
    (visit_point (fun s => s ++ "*") example_topology 0
        ⟨⟨10, 20⟩, some [("name", value.str "a\x00b")]⟩).puts
        = [("name", value.str "a*")]
      ∧ feature_properties
          (visit_point (fun s => s ++ "*") example_topology 0
            ⟨⟨10, 20⟩, some [("name", value.str "a\x00b")]⟩)
        = [("name", value.str "a*")]
      ∧ feature_properties
          (visit_point (fun s => s ++ "*") example_topology 0
            ⟨⟨10, 20⟩, some [("name", value.str "a\x00b")]⟩)
        ≠ [("name", value.str ("a\x00b" ++ "*"))] := by
  decide

/-- C17, amended: a feature emitted for a geometry receives one `put_new` call per
(key, value) pair of the geometry, in order; a string value is cut before its first NUL
character and then transcoded (a string without NUL character is transcoded whole), a
double, an integer or a boolean is passed unchanged; with pairwise distinct keys the
property mapping of the feature is exactly these pairs and nothing else.  A geometry
without property list counts as one with the empty list: its feature has no
properties. -/
theorem properties_assigned {α : Type} [Zero α] [Add α] [Mul α]
    (simplify : List (coordinate α) → List (coordinate α)) (tr_ : String → String)
    (topo : topology α) (feature_id : Nat) (g : geometry α) (f : feature_impl α)
    (h : feature_generator simplify tr_ topo feature_id g = some (some f))
    (hnodup : ((g.props.getD []).map Prod.fst).Nodup) :
    f.puts = (g.props.getD []).map (fun p => (p.1, attribute_value_visitor tr_ p.2))
      ∧ feature_properties f
          = (g.props.getD []).map (fun p => (p.1, attribute_value_visitor tr_ p.2))
      ∧ (∀ s, attribute_value_visitor tr_ (value.str s : value α)
          = value.str (tr_ (c_str s)))
      ∧ (∀ s, (∀ c ∈ s.data, c ≠ Char.ofNat 0) →
          attribute_value_visitor tr_ (value.str s : value α) = value.str (tr_ s))
      ∧ (∀ d, attribute_value_visitor tr_ (value.dbl d : value α) = value.dbl d)
      ∧ (∀ i, attribute_value_visitor tr_ (value.int i : value α) = value.int i)
      ∧ (∀ b, attribute_value_visitor tr_ (value.bool b : value α) = value.bool b) := by
  have hputs := (feature_generator_some simplify tr_ topo feature_id g f h).2
  have hp : f.puts
      = (g.props.getD []).map (fun p => (p.1, attribute_value_visitor tr_ p.2)) := by
    rw [hputs]
    cases g.props with
    | none => rfl
    | some ps => rfl
  refine ⟨hp, ?_, fun _ => rfl, ?_, fun _ => rfl, fun _ => rfl, fun _ => rfl⟩
  · rw [feature_properties, hp, foldl_put_new_append _ []]
    · simp
    · simpa [List.map_map, Function.comp_def] using hnodup
    · intro _ _ q hq
      simp at hq
  · intro s hs
    simp only [attribute_value_visitor, c_str_of_no_nul s hs]

/-- C17 amended, on a Point carrying a string, an integer and a boolean property, with a
transcoder that appends a star to the text, and on a Point without property list. -/
theorem properties_assigned_witness :
    ((visit_point (fun s => s ++ "*") example_topology 4
          ⟨⟨10, 20⟩,
            some [("name", value.str "A"), ("n", value.int 3), ("b", value.bool true)]⟩).puts
        = [("name", value.str "A*"), ("n", value.int 3), ("b", value.bool true)]
      ∧ feature_properties
          (visit_point (fun s => s ++ "*") example_topology 4
            ⟨⟨10, 20⟩,
              some [("name", value.str "A"), ("n", value.int 3), ("b", value.bool true)]⟩)
        = [("name", value.str "A*"), ("n", value.int 3), ("b", value.bool true)]
      ∧ (∀ s, attribute_value_visitor (fun s => s ++ "*") (value.str s : value Int)
          = value.str (c_str s ++ "*"))
      ∧ (∀ s, (∀ c ∈ s.data, c ≠ Char.ofNat 0) →
          attribute_value_visitor (fun s => s ++ "*") (value.str s : value Int)
            = value.str (s ++ "*"))
      ∧ (∀ d, attribute_value_visitor (fun s => s ++ "*") (value.dbl d : value Int)
          = value.dbl d)
      ∧ (∀ i, attribute_value_visitor (fun s => s ++ "*") (value.int i : value Int)
          = value.int i)
      ∧ (∀ b, attribute_value_visitor (fun s => s ++ "*") (value.bool b : value Int)
          = value.bool b))
      ∧ feature_properties
          (visit_point (fun s => s ++ "*") example_topology 5 ⟨⟨10, 20⟩, none⟩) = []
      ∧ attribute_value_visitor (fun s => s ++ "*") (value.str "A" : value Int)
        = value.str ("A" ++ "*") :=
  ⟨properties_assigned simplify_2 (fun s => s ++ "*") example_topology 4
      (geometry.point ⟨⟨10, 20⟩,
        some [("name", value.str "A"), ("n", value.int 3), ("b", value.bool true)]⟩)
      _ rfl (by decide),
    (properties_assigned simplify_2 (fun s => s ++ "*") example_topology 5
      (geometry.point ⟨⟨10, 20⟩, none⟩) _ rfl (by decide)).2.1,
    (properties_assigned simplify_2 (fun s => s ++ "*") example_topology 5
      (geometry.point ⟨⟨10, 20⟩, none⟩) _ rfl (by decide)).2.2.2.1 "A" (by decide)⟩

/-- C18: the visitors index the arcs without any range check: for a ring reference whose
resolved arc index is not below len(arcs) the access is out of range and no feature is
defined, although the remaining references alone give a feature. -/
theorem out_of_range_arc_reference_undefined :
    visit_multi_linestring id example_topology 0 ⟨[0, 5], none⟩ = none
      ∧ (visit_multi_linestring id example_topology 0 ⟨[0], none⟩).isSome = true
      ∧ visit_polygon simplify_2 id example_topology_ring 0 ⟨[[0, 1], [7]], none⟩ = none
      ∧ (visit_polygon simplify_2 id example_topology_ring 0 ⟨[[0, 1]], none⟩).isSome = true
      ∧ visit_multi_polygon id example_topology_ring 0 ⟨[[[0, 1]], [[-8]]], none⟩ = none
      ∧ (visit_multi_polygon id example_topology_ring 0 ⟨[[[0, 1]]], none⟩).isSome = true := by
  decide

theorem decode_delta_encode_from {α : Type} [Ring α] (t : transform α) (prev : coordinate α)
    (cs : List (coordinate α)) :
    decode_from (some t) (prev.x, prev.y) (delta_encode_from prev cs) = cs.map t.apply := by
  induction cs generalizing prev with
  | nil => rfl
  | cons c cs ih =>
    have hx : prev.x + (c.x - prev.x) = c.x := by abel
    have hy : prev.y + (c.y - prev.y) = c.y := by abel
    simp only [delta_encode_from, decode_from, decode_step, hx, hy, List.map_cons, ih c]
    rfl

theorem decode_delta_encode {α : Type} [Ring α] (t : transform α)
    (cs : List (coordinate α)) :
    decode_from (some t) (0, 0) (delta_encode cs) = cs.map t.apply := by
  cases cs with
  | nil => rfl
  | cons c cs =>
    simp only [delta_encode, decode_from, decode_step, zero_add, List.map_cons,
      decode_delta_encode_from t c cs]
    rfl

/-- C19: over exact arithmetic (any ring), when the arc of a LineString is the delta
encoding `d_0 = c_0, d_k = c_k - c_(k-1)` of the absolute coordinates `c_0 .. c_(n-1)`,
the visitor under a Transform emits the open path of the coordinates
`(c_k.x * scale_x + translate_x, c_k.y * scale_y + translate_y)`, and under the identity
Transform (scale (1,1), translate (0,0)) the open path of `c_0 .. c_(n-1)` themselves. -/
theorem delta_round_trip {α : Type} [Ring α] (tr_ : String → String) (topo : topology α)
    (feature_id : Nat) (line : linestring α) (t : transform α) (cs : List (coordinate α))
    (htr : topo.tr = some t)
    (harc : arcs_at topo.arcs line.ring = some ⟨delta_encode cs⟩) :
    visit_linestring tr_ topo feature_id line
        = some { id := feature_id,
                 paths := [⟨eGeomType.LineString, open_path (cs.map t.apply)⟩],
                 puts := assign_properties tr_ line.props }
      ∧ (t = ⟨1, 1, 0, 0⟩ →
          visit_linestring tr_ topo feature_id line
            = some { id := feature_id,
                     paths := [⟨eGeomType.LineString, open_path cs⟩],
                     puts := assign_properties tr_ line.props }) := by
  have hmain : visit_linestring tr_ topo feature_id line
      = some { id := feature_id,
               paths := [⟨eGeomType.LineString, open_path (cs.map t.apply)⟩],
               puts := assign_properties tr_ line.props } := by
    simp only [visit_linestring, harc, line_loop_eq, htr, decode_delta_encode]
  refine ⟨hmain, ?_⟩
  intro hid
  rw [hmain, hid]
  have hmap : ∀ l : List (coordinate α),
      l.map (transform.apply (⟨1, 1, 0, 0⟩ : transform α)) = l := by
    intro l
    induction l with
    | nil => rfl
    | cons c l ih =>
      rw [List.map_cons, ih]
      simp [transform.apply]
  rw [hmap]

/-- C19, on the absolute coordinates (0,0),(1,0),(1,1), whose delta encoding is the arc
(0,0),(1,0),(0,1) of the scenario with the identity transform. -/
theorem delta_round_trip_witness :
    delta_encode ([⟨0, 0⟩, ⟨1, 0⟩, ⟨1, 1⟩] : List (coordinate Int)) = example_arc.coordinates
      ∧ visit_linestring id example_topology 0 ⟨0, none⟩
        = some { id := 0,
                 paths := [⟨eGeomType.LineString,
                   open_path (([⟨0, 0⟩, ⟨1, 0⟩, ⟨1, 1⟩] : List (coordinate Int)).map
                     (transform.apply ⟨1, 1, 0, 0⟩))⟩],
                 puts := assign_properties id (none : Option (properties Int)) }
      ∧ ((⟨1, 1, 0, 0⟩ : transform Int) = ⟨1, 1, 0, 0⟩ →
          visit_linestring id example_topology 0 ⟨0, none⟩
            = some { id := 0,
                     paths := [⟨eGeomType.LineString,
                       open_path [⟨0, 0⟩, ⟨1, 0⟩, ⟨1, 1⟩]⟩],
                     puts := assign_properties id (none : Option (properties Int)) }) :=
  ⟨by decide,
   delta_round_trip id example_topology 0 ⟨0, none⟩ ⟨1, 1, 0, 0⟩
     [⟨0, 0⟩, ⟨1, 0⟩, ⟨1, 1⟩] rfl (by decide)⟩

/-! ## The simplifier keeps a subsequence with the same ends -/

theorem ends_pair_facts {β : Type} (a : β) (rest : List β) (h : rest ≠ []) :
    [a, rest.getLastD a].Sublist (a :: rest)
      ∧ [a, rest.getLastD a].head? = (a :: rest).head?
      ∧ [a, rest.getLastD a].getLast? = (a :: rest).getLast? := by
  have hl : rest.getLastD a = rest.getLast h := by
    cases rest with
    | nil => exact absurd rfl h
    | cons b bs => rw [List.getLastD_cons, List.getLast_eq_getLastD]
  refine ⟨?_, rfl, ?_⟩
  · rw [hl]
    exact List.Sublist.cons₂ a (List.singleton_sublist.mpr (List.getLast_mem h))
  · rw [hl]
    cases rest with
    | nil => exact absurd rfl h
    | cons b bs => simp [List.getLast?_eq_getLast]

theorem tail_getLast_of_two {β : Type} (l : List β) (h : 2 ≤ l.length) :
    l.tail.getLast? = l.getLast? ∧ l.tail ≠ [] := by
  cases l with
  | nil => simp at h
  | cons x l =>
    cases l with
    | nil => simp at h
    | cons y l => simp [List.getLast?_cons_cons]

theorem halves_concat_facts {β : Type} (pts X Y : List β) (i : Nat)
    (hX : X.Sublist (pts.take (i + 2)))
    (hXh : X.head? = (pts.take (i + 2)).head?)
    (hXl : X.getLast? = (pts.take (i + 2)).getLast?)
    (hX2 : 2 ≤ (pts.take (i + 2)).length → 2 ≤ X.length)
    (hY : Y.Sublist (pts.drop (i + 1)))
    (hYl : Y.getLast? = (pts.drop (i + 1)).getLast?)
    (hY2 : 2 ≤ (pts.drop (i + 1)).length → 2 ≤ Y.length)
    (hn : 2 ≤ pts.length) :
    (X ++ Y.tail).Sublist pts
      ∧ (X ++ Y.tail).head? = pts.head?
      ∧ (X ++ Y.tail).getLast? = pts.getLast?
      ∧ 2 ≤ (X ++ Y.tail).length := by
  have hXlen : 2 ≤ X.length := hX2 (by rw [List.length_take]; omega)
  have hsub : (X ++ Y.tail).Sublist pts := by
    have h1 : Y.tail.Sublist (pts.drop (i + 2)) := by
      have := hY.tail
      rwa [List.tail_drop] at this
    have h2 := List.Sublist.append hX h1
    rwa [List.take_append_drop] at h2
  refine ⟨hsub, ?_, ?_, ?_⟩
  · cases X with
    | nil => simp at hXlen
    | cons x X =>
      cases pts with
      | nil => simp at hn
      | cons p pts =>
        simp only [List.take_succ_cons, List.head?_cons] at hXh
        simpa using hXh
  · by_cases hcase : 2 ≤ (pts.drop (i + 1)).length
    · have hYlen := hY2 hcase
      obtain ⟨htl, hne⟩ := tail_getLast_of_two Y hYlen
      rw [List.getLast?_append_of_ne_nil _ hne, htl, hYl, List.getLast?_drop]
      rw [List.length_drop] at hcase
      rw [if_neg (by omega)]
    · have hYle : Y.length ≤ 1 := by
        have := hY.length_le
        omega
      have hYt : Y.tail = [] := by
        cases Y with
        | nil => rfl
        | cons y Y =>
          cases Y with
          | nil => rfl
          | cons z Y => simp at hYle
      rw [List.length_drop] at hcase
      rw [hYt, List.append_nil, hXl, List.take_of_length_le (by omega)]
  · rw [List.length_append]
    omega

theorem douglas_peucker_invariant {α : Type} [Zero α] [One α] [Add α] [Sub α] [Mul α] [LT α]
    [∀ u v : α, Decidable (u < v)] (fuel : Nat) (tol2 : α) (pts : List (coordinate α)) :
    (douglas_peucker fuel tol2 pts).Sublist pts
      ∧ (douglas_peucker fuel tol2 pts).head? = pts.head?
      ∧ (douglas_peucker fuel tol2 pts).getLast? = pts.getLast?
      ∧ (2 ≤ pts.length → 2 ≤ (douglas_peucker fuel tol2 pts).length) := by
  induction fuel generalizing pts with
  | zero => simp [douglas_peucker]
  | succ fuel ih =>
    cases pts with
    | nil => simp [douglas_peucker]
    | cons a rest =>
      cases rest with
      | nil => simp [douglas_peucker]
      | cons b0 rest =>
        have hpair := ends_pair_facts a (b0 :: rest) (List.cons_ne_nil _ _)
        simp only [douglas_peucker]
        cases hf : farthest a ((b0 :: rest).getLastD a) (b0 :: rest).dropLast 0 none with
        | none =>
          exact ⟨hpair.1, hpair.2.1, hpair.2.2, fun _ => by simp⟩
        | some r =>
          obtain ⟨i, d⟩ := r
          by_cases hc : tol2 * (deviation a ((b0 :: rest).getLastD a) a).2 < d
          · simp only [hc, if_true]
            have hL := ih ((a :: b0 :: rest).take (i + 2))
            have hR := ih ((a :: b0 :: rest).drop (i + 1))
            have hcat := halves_concat_facts (a :: b0 :: rest) _ _ i hL.1 hL.2.1 hL.2.2.1
              hL.2.2.2 hR.1 hR.2.2.1 hR.2.2.2 (by simp)
            exact ⟨hcat.1, hcat.2.1, hcat.2.2.1, fun _ => hcat.2.2.2⟩
          · simp only [hc, if_false]
            exact ⟨hpair.1, hpair.2.1, hpair.2.2, fun _ => by simp⟩

/-- C20: the simplified run is an order-preserving subsequence of the run it is computed
from, with the same first point and the same last point; this holds for the simplifier
at every tolerance and recursion bound, in particular for the run `simplify_2` returns at
tolerance 2, the one the Polygon visitor uses on integer coordinates. -/
theorem simplify_subsequence_same_ends {α : Type} [Zero α] [One α] [Add α] [Sub α] [Mul α]
    [LT α] [∀ u v : α, Decidable (u < v)] (fuel : Nat) (tol2 : α)
    (pts : List (coordinate α)) (run : List (coordinate Int)) :
    (douglas_peucker fuel tol2 pts).Sublist pts
      ∧ (douglas_peucker fuel tol2 pts).head? = pts.head?
      ∧ (douglas_peucker fuel tol2 pts).getLast? = pts.getLast?
      ∧ (simplify_2 run).Sublist run
      ∧ (simplify_2 run).head? = run.head?
      ∧ (simplify_2 run).getLast? = run.getLast? := by
  have h1 := douglas_peucker_invariant fuel tol2 pts
  have h2 := douglas_peucker_invariant run.length 4 run
  exact ⟨h1.1, h1.2.1, h1.2.2.1, h2.1, h2.2.1, h2.2.2.1⟩

/-! ## Joined rings, independent decoding, MultiLineString members, slices -/

theorem vertices_draw {α : Type} (first : Bool) (cs : List (coordinate α)) :
    vertices (draw first cs) = cs := by
  cases cs with
  | nil => rfl
  | cons c cs =>
    have hrest : ∀ l : List (coordinate α),
        List.filterMap command.vertex (l.map (fun d => command.line_to d.x d.y)) = l := by
      intro l
      induction l with
      | nil => rfl
      | cons d ds ih => simp [command.vertex, ih]
    cases first
    · simp only [vertices, draw, List.filterMap_cons, command.vertex, hrest]
      rfl
    · simp only [vertices, draw, List.filterMap_cons, command.vertex, hrest]
      rfl

theorem vertices_ring {α : Type} (cs : List (coordinate α)) :
    vertices (open_path cs ++ [command.close_path]) = cs := by
  have h := vertices_draw true cs
  unfold vertices at h ⊢
  rw [List.filterMap_append, open_path, h]
  simp [command.vertex]

theorem flatten_dropLast_eq_joined {β : Type} (runs : List (List β))
    (h : ends_coincide runs) :
    (runs.map List.dropLast).flatten = (joined runs).dropLast := by
  induction runs with
  | nil => rfl
  | cons r rest ih =>
    cases rest with
    | nil => simp [joined]
    | cons s rest =>
      obtain ⟨hr, hrs, hrest⟩ := h
      have ih2 := ih hrest
      have hs : s ≠ [] := by
        intro hs
        subst hs
        cases r with
        | nil => exact hr rfl
        | cons x xs => simp [List.getLast?_eq_getLast] at hrs
      obtain ⟨y, ys, rfl⟩ := List.exists_cons_of_ne_nil hs
      have hlast : r.getLast hr = y := by
        rw [List.getLast?_eq_getLast _ hr] at hrs
        simpa using hrs
      have hrsplit : r = r.dropLast ++ [y] := by
        rw [← hlast, List.dropLast_append_getLast]
      rw [List.map_cons, List.flatten_cons, ih2]
      simp only [joined, List.map_cons, List.flatten_cons, List.tail_cons]
      have hne : (y :: ys) ++ (rest.map List.tail).flatten ≠ [] := by simp
      calc r.dropLast ++ ((y :: ys) ++ (rest.map List.tail).flatten).dropLast
          = (r.dropLast ++ ((y :: ys) ++ (rest.map List.tail).flatten)).dropLast := by
            rw [List.dropLast_append_of_ne_nil _ hne]
        _ = ((r.dropLast ++ [y]) ++ (ys ++ (rest.map List.tail).flatten)).dropLast := by
            simp
        _ = (r ++ (ys ++ (rest.map List.tail).flatten)).dropLast := by
            rw [← hrsplit]

/-- C21, as stated, fails on its own example: for the ring [0, 1] over arc 0 =
(0,0),(1,0) and arc 1 = (1,0),(1,1),(0,0) without Transform the Polygon visitor emits
move-to(0,0), line-to(1,0), close (the simplification with tolerance 2 removes (1,1), and
the last coordinate of every arc is dropped); even with the simplification left out it
emits (0,0),(1,0),(1,1), close.  In neither case does it visit (0,0),(1,0),(1,1),(0,0). -/
theorem polygon_ring_example_counterexample :
    visit_polygon simplify_2 id example_topology_ring 0 ⟨[[0, 1]], none⟩
        = some { id := 0,
                 paths := [⟨eGeomType.Polygon,
                   [command.move_to 0 0, command.line_to 1 0, command.close_path]⟩],
                 puts := [] }
      ∧ visit_polygon (fun run => run) id example_topology_ring 0 ⟨[[0, 1]], none⟩
        = some { id := 0,
                 paths := [⟨eGeomType.Polygon,
                   [command.move_to 0 0, command.line_to 1 0, command.line_to 1 1,
                    command.close_path]⟩],
                 puts := [] }
      ∧ visit_polygon simplify_2 id example_topology_ring 0 ⟨[[0, 1]], none⟩
        ≠ some { id := 0,
                 paths := [⟨eGeomType.Polygon,
                   [command.move_to 0 0, command.line_to 1 0, command.line_to 1 1,
                    command.line_to 0 0, command.close_path]⟩],
                 puts := [] }
      ∧ visit_polygon (fun run => run) id example_topology_ring 0 ⟨[[0, 1]], none⟩
        ≠ some { id := 0,
                 paths := [⟨eGeomType.Polygon,
                   [command.move_to 0 0, command.line_to 1 0, command.line_to 1 1,
                    command.line_to 0 0, command.close_path]⟩],
                 puts := [] } := by
  decide

/-- C21, amended: for a Polygon ring whose arcs, simplified and put in traversal order,
share their consecutive ends, the closed path visits the coordinates of the joined ring
in order, every shared join coordinate once, except the last coordinate of the ring,
which is not emitted; then it closes. -/
theorem polygon_ring_join_once {α : Type} [Zero α] [Add α] [Mul α]
    (simplify : List (coordinate α) → List (coordinate α)) (tr_ : String → String)
    (topo : topology α) (feature_id : Nat) (ring : List index_type)
    (props : Option (properties α))
    (hok : ∀ index ∈ ring, simplified_ref_ok simplify topo index = true)
    (hends : ends_coincide (ring.map (simplified_traversal simplify topo))) :
    visit_polygon simplify tr_ topo feature_id ⟨[ring], props⟩
      = some { id := feature_id,
               paths := [⟨eGeomType.Polygon,
                 open_path (joined (ring.map (simplified_traversal simplify topo))).dropLast
                   ++ [command.close_path]⟩],
               puts := assign_properties tr_ props } := by
  unfold visit_polygon
  simp only [List.foldlM_cons, List.foldlM_nil]
  rw [polygon_ring_ok simplify topo [] ring hok]
  have hj := flatten_dropLast_eq_joined (ring.map (simplified_traversal simplify topo)) hends
  rw [List.map_map] at hj
  simp only [simplified_ring_commands, List.nil_append, Option.bind_eq_bind,
    Option.some_bind, Option.pure_def]
  rw [← hj]
  rfl

/-- C21 amended, at the ring [0, 1] of the polygon scenario: the simplified runs are
(0,0),(1,0) and (1,0),(0,0); the path is move-to(0,0), line-to(1,0), close. -/
theorem polygon_ring_join_once_witness :
    visit_polygon simplify_2 id example_topology_ring 0 ⟨[[0, 1]], none⟩
        = some { id := 0,
                 paths := [⟨eGeomType.Polygon,
                   open_path (joined ([0, 1].map
                       (simplified_traversal simplify_2 example_topology_ring))).dropLast
                     ++ [command.close_path]⟩],
                 puts := assign_properties id (none : Option (properties Int)) }
      ∧ (joined ([0, 1].map (simplified_traversal simplify_2 example_topology_ring))).dropLast
        = [⟨0, 0⟩, ⟨1, 0⟩] :=
  ⟨polygon_ring_join_once simplify_2 id example_topology_ring 0 [0, 1] none (by decide)
     ⟨by decide, by decide,
      (by decide : simplified_traversal simplify_2 example_topology_ring 1 ≠ [])⟩,
   by decide⟩

theorem arc_traversal_eq {α : Type} [Zero α] [Add α] [Mul α] (topo : topology α)
    (index : Int) (a : arc α) (ha : arcs_at topo.arcs (resolve_ring index).2 = some a) :
    arc_traversal topo index
      = if index < 0 then (process_coords topo.tr a.coordinates).reverse
        else process_coords topo.tr a.coordinates := by
  rw [resolve_ring_eq] at ha
  simp only at ha
  unfold arc_traversal
  rw [ha]
  simp only [process_coords_eq]

theorem simplified_traversal_eq {α : Type} [Zero α] [Add α] [Mul α]
    (simplify : List (coordinate α) → List (coordinate α)) (topo : topology α)
    (index : Int) (a : arc α) (ha : arcs_at topo.arcs (resolve_ring index).2 = some a) :
    simplified_traversal simplify topo index
      = if index < 0 then (simplify (process_coords topo.tr a.coordinates)).reverse
        else simplify (process_coords topo.tr a.coordinates) := by
  rw [resolve_ring_eq] at ha
  simp only at ha
  unfold simplified_traversal
  rw [ha]
  simp only [process_coords_eq]

/-- C22: in a Polygon or MultiPolygon ring, whatever references come before and after
it, an arc reference contributes the coordinates obtained by decoding its arc alone, the
running sum starting at (0,0): the decoded run is the one the LineString visitor emits
for the same arc, and the vertices of the ring are those of the references before,
followed by this run (simplified in the Polygon visitor) in traversal order without its
last coordinate, followed by those of the references after. -/
theorem ring_arcs_decoded_independently {α : Type} [Zero α] [Add α] [Mul α]
    (simplify : List (coordinate α) → List (coordinate α)) (topo : topology α)
    (pre post : List index_type) (index : Int) (a : arc α)
    (ha : arcs_at topo.arcs (resolve_ring index).2 = some a)
    (hok : ∀ i ∈ pre ++ index :: post,
      ref_ok topo i = true ∧ simplified_ref_ok simplify topo i = true) :
    process_coords topo.tr a.coordinates = decode_from topo.tr (0, 0) a.coordinates
      ∧ vertices (line_loop topo.tr a.coordinates) = process_coords topo.tr a.coordinates
      ∧ (∃ c_pre c_post c,
          multi_polygon_ring topo [] pre = some c_pre
            ∧ multi_polygon_ring topo [] post = some c_post
            ∧ multi_polygon_ring topo [] (pre ++ index :: post) = some c
            ∧ vertices c
              = vertices c_pre
                ++ (if index < 0 then (process_coords topo.tr a.coordinates).reverse
                    else process_coords topo.tr a.coordinates).dropLast
                ++ vertices c_post)
      ∧ (∃ d_pre d_post d,
          polygon_ring simplify topo [] pre = some d_pre
            ∧ polygon_ring simplify topo [] post = some d_post
            ∧ polygon_ring simplify topo [] (pre ++ index :: post) = some d
            ∧ vertices d
              = vertices d_pre
                ++ (if index < 0 then (simplify (process_coords topo.tr a.coordinates)).reverse
                    else simplify (process_coords topo.tr a.coordinates)).dropLast
                ++ vertices d_post) := by
  have hpre : ∀ i ∈ pre, ref_ok topo i = true ∧ simplified_ref_ok simplify topo i = true :=
    fun i hi => hok i (List.mem_append_left _ hi)
  have hpost : ∀ i ∈ post, ref_ok topo i = true ∧ simplified_ref_ok simplify topo i = true :=
    fun i hi => hok i (List.mem_append_right _ (List.mem_cons_of_mem _ hi))
  refine ⟨process_coords_eq _ _, ?_, ?_, ?_⟩
  · rw [line_loop_eq, process_coords_eq, open_path, vertices_draw]
  · refine ⟨_, _, _, multi_polygon_ring_ok topo [] pre (fun i hi => (hpre i hi).1),
      multi_polygon_ring_ok topo [] post (fun i hi => (hpost i hi).1),
      multi_polygon_ring_ok topo [] _ (fun i hi => (hok i hi).1), ?_⟩
    simp only [List.nil_append, ring_commands, vertices_ring, List.map_append, List.map_cons,
      List.flatten_append, List.flatten_cons, arc_traversal_eq topo index a ha,
      List.append_assoc]
  · refine ⟨_, _, _, polygon_ring_ok simplify topo [] pre (fun i hi => (hpre i hi).2),
      polygon_ring_ok simplify topo [] post (fun i hi => (hpost i hi).2),
      polygon_ring_ok simplify topo [] _ (fun i hi => (hok i hi).2), ?_⟩
    simp only [List.nil_append, simplified_ring_commands, vertices_ring, List.map_append,
      List.map_cons, List.flatten_append, List.flatten_cons,
      simplified_traversal_eq simplify topo index a ha, List.append_assoc]

/-- C22, with a Transform: arc 0 (deltas (0,0),(1,0),(0,1)) referenced after itself and
before its reverse; the second reference contributes (0,0),(1,0) again, not coordinates
continued from the end of the first. -/
theorem ring_arcs_decoded_independently_witness :
    (process_coords example_topology.tr example_arc.coordinates
        = decode_from example_topology.tr (0, 0) example_arc.coordinates
      ∧ vertices (line_loop example_topology.tr example_arc.coordinates)
        = process_coords example_topology.tr example_arc.coordinates
      ∧ (∃ c_pre c_post c,
          multi_polygon_ring example_topology [] [0] = some c_pre
            ∧ multi_polygon_ring example_topology [] [-1] = some c_post
            ∧ multi_polygon_ring example_topology [] ([0] ++ 0 :: [-1]) = some c
            ∧ vertices c
              = vertices c_pre
                ++ (if (0 : Int) < 0 then
                      (process_coords example_topology.tr example_arc.coordinates).reverse
                    else process_coords example_topology.tr example_arc.coordinates).dropLast
                ++ vertices c_post)
      ∧ (∃ d_pre d_post d,
          polygon_ring simplify_2 example_topology [] [0] = some d_pre
            ∧ polygon_ring simplify_2 example_topology [] [-1] = some d_post
            ∧ polygon_ring simplify_2 example_topology [] ([0] ++ 0 :: [-1]) = some d
            ∧ vertices d
              = vertices d_pre
                ++ (if (0 : Int) < 0 then
                      (simplify_2
                        (process_coords example_topology.tr example_arc.coordinates)).reverse
                    else simplify_2
                      (process_coords example_topology.tr example_arc.coordinates)).dropLast
                ++ vertices d_post))
      ∧ multi_polygon_ring example_topology [] [0, 0, -1]
        = some [command.move_to 0 0, command.line_to 1 0, command.line_to 0 0,
                command.line_to 1 0, command.line_to 1 1, command.line_to 1 0,
                command.close_path] :=
  ⟨ring_arcs_decoded_independently simplify_2 example_topology [0] [-1] 0 example_arc
     (by decide) (by decide),
   by decide⟩

theorem multi_linestring_member_ok {α : Type} [Zero α] [Add α] [Mul α] (topo : topology α)
    (index : Int) (h : ref_in_range topo index = true) :
    multi_linestring_member topo index
      = some ⟨eGeomType.LineString,
          open_path (decode_from topo.tr (0, 0) (referenced_arc topo index).coordinates)⟩ := by
  unfold ref_in_range at h
  unfold multi_linestring_member referenced_arc
  dsimp only
  cases ha : arcs_at topo.arcs (resolve_ring index).2 with
  | none => simp [ha] at h
  | some a => simp only [line_loop_eq, Option.getD_some]

/-- C23: for a MultiLineString whose m references are all in range the feature has
exactly m paths, in reference order; path j is the open path of the decoded coordinates
of the arc that reference j resolves to, a move-to followed by line-tos with no close, so
members are never joined into one path. -/
theorem multi_linestring_members {α : Type} [Zero α] [Add α] [Mul α]
    (tr_ : String → String) (topo : topology α) (feature_id : Nat)
    (multi_line : multi_linestring α)
    (hok : ∀ index ∈ multi_line.rings, ref_in_range topo index = true) :
    visit_multi_linestring tr_ topo feature_id multi_line
        = some { id := feature_id,
                 paths := multi_line.rings.map (fun index =>
                   ⟨eGeomType.LineString,
                     open_path
                       (decode_from topo.tr (0, 0) (referenced_arc topo index).coordinates)⟩),
                 puts := assign_properties tr_ multi_line.props }
      ∧ (multi_line.rings.map (fun index =>
            (⟨eGeomType.LineString,
              open_path
                (decode_from topo.tr (0, 0) (referenced_arc topo index).coordinates)⟩
              : geometry_type α))).length = multi_line.rings.length
      ∧ ∀ index ∈ multi_line.rings,
          ∀ c ∈ open_path
              (decode_from topo.tr (0, 0) (referenced_arc topo index).coordinates),
            c.is_close = false := by
  refine ⟨?_, by simp, ?_⟩
  · unfold visit_multi_linestring
    rw [mapM_some (multi_linestring_member topo) _ multi_line.rings
      (fun index hi => multi_linestring_member_ok topo index (hok index hi))]
  · intro index _ c hc
    exact not_close_of_mem_draw true _ c hc

/-- C23, on the references 0 and -1 of the scenario with the identity transform: two
paths, one per member. -/
theorem multi_linestring_members_witness :
    (visit_multi_linestring id example_topology 0 ⟨[0, -1], none⟩
        = some { id := 0,
                 paths := [0, -1].map (fun index =>
                   ⟨eGeomType.LineString,
                     open_path (decode_from example_topology.tr (0, 0)
                       (referenced_arc example_topology index).coordinates)⟩),
                 puts := assign_properties id (none : Option (properties Int)) }
      ∧ ([0, -1].map (fun index =>
            (⟨eGeomType.LineString,
              open_path (decode_from example_topology.tr (0, 0)
                (referenced_arc example_topology index).coordinates)⟩
              : geometry_type Int))).length = ([0, -1] : List index_type).length
      ∧ ∀ index ∈ ([0, -1] : List index_type),
          ∀ c ∈ open_path (decode_from example_topology.tr (0, 0)
              (referenced_arc example_topology index).coordinates),
            c.is_close = false)
      ∧ visit_multi_linestring id example_topology 0 ⟨[0, -1], none⟩
        = some { id := 0,
                 paths := [⟨eGeomType.LineString,
                     [command.move_to 0 0, command.line_to 1 0, command.line_to 1 1]⟩,
                   ⟨eGeomType.LineString,
                     [command.move_to 0 0, command.line_to 1 0, command.line_to 1 1]⟩],
                 puts := [] } :=
  ⟨multi_linestring_members id example_topology 0 ⟨[0, -1], none⟩ (by decide),
   by decide⟩

theorem simplify_2_sublist (run : List (coordinate Int)) : (simplify_2 run).Sublist run :=
  (douglas_peucker_invariant run.length 4 run).1

theorem simplify_2_ne_nil (run : List (coordinate Int)) (h : run ≠ []) :
    simplify_2 run ≠ [] := by
  intro hnil
  have hhead := (douglas_peucker_invariant run.length 4 run).2.1
  unfold simplify_2 at hnil
  rw [hnil] at hhead
  cases run with
  | nil => exact h rfl
  | cons c cs => simp at hhead

theorem size_minus_one_succ (n : Nat) (h : n ≠ 0) : size_minus_one n + 1 = n := by
  unfold size_minus_one
  rw [if_neg h]
  omega

/-- C24: when every resolved arc index is in range and every referenced arc has at least
one coordinate (and the simplifier returns a non-empty subsequence of a non-empty run),
the Polygon and MultiPolygon visitors return a feature; for every such reference the
value of `size - 1` does not wrap and the slice `[0, size - 1)` of the run, reversed or
not, is within bounds and is the run without its last coordinate; an arc with exactly one
coordinate leaves the ring as it is. -/
theorem slices_within_bounds {α : Type} [Zero α] [Add α] [Mul α]
    (simplify : List (coordinate α) → List (coordinate α))
    (hsub : ∀ run, (simplify run).Sublist run)
    (hne : ∀ run, run ≠ [] → simplify run ≠ [])
    (tr_ : String → String) (topo : topology α) (feature_id : Nat)
    (poly : polygon α) (multi_poly : multi_polygon α)
    (index : Int) (a : arc α) (s : ring_state α)
    (hokp : ∀ ring ∈ poly.rings, ∀ i ∈ ring, ref_ok topo i = true)
    (hokm : ∀ p ∈ multi_poly.polygons, ∀ ring ∈ p, ∀ i ∈ ring, ref_ok topo i = true)
    (ha : arcs_at topo.arcs (resolve_ring index).2 = some a)
    (hane : a.coordinates ≠ []) :
    (∃ f, visit_polygon simplify tr_ topo feature_id poly = some f)
      ∧ (∃ f, visit_multi_polygon tr_ topo feature_id multi_poly = some f)
      ∧ size_minus_one (process_coords topo.tr a.coordinates).length + 1
          = (process_coords topo.tr a.coordinates).length
      ∧ sliced (process_coords topo.tr a.coordinates) 0
            (size_minus_one (process_coords topo.tr a.coordinates).length)
          = some (process_coords topo.tr a.coordinates).dropLast
      ∧ sliced (process_coords topo.tr a.coordinates).reverse 0
            (size_minus_one (process_coords topo.tr a.coordinates).length)
          = some (process_coords topo.tr a.coordinates).reverse.dropLast
      ∧ size_minus_one (simplify (process_coords topo.tr a.coordinates)).length + 1
          = (simplify (process_coords topo.tr a.coordinates)).length
      ∧ sliced (simplify (process_coords topo.tr a.coordinates)) 0
            (size_minus_one (simplify (process_coords topo.tr a.coordinates)).length)
          = some (simplify (process_coords topo.tr a.coordinates)).dropLast
      ∧ sliced (simplify (process_coords topo.tr a.coordinates)).reverse 0
            (size_minus_one (simplify (process_coords topo.tr a.coordinates)).length)
          = some (simplify (process_coords topo.tr a.coordinates)).reverse.dropLast
      ∧ (a.coordinates.length = 1 →
          multi_polygon_arc topo s index = some s
            ∧ polygon_arc simplify topo s index = some s) := by
  have hrun : process_coords topo.tr a.coordinates ≠ [] := by
    intro hnil
    have hl := decode_from_length topo.tr (0, 0) a.coordinates
    rw [← process_coords_eq, hnil] at hl
    exact hane (List.length_eq_zero.mp hl.symm)
  have hsrun : simplify (process_coords topo.tr a.coordinates) ≠ [] := hne _ hrun
  have hsok : ∀ i, ref_ok topo i = true → simplified_ref_ok simplify topo i = true := by
    intro i hi
    unfold ref_ok at hi
    unfold simplified_ref_ok
    cases hb : arcs_at topo.arcs (resolve_ring i).2 with
    | none => simp [hb] at hi
    | some b =>
      rw [hb] at hi
      have hbne : b.coordinates ≠ [] := by
        intro hnil
        simp [hnil] at hi
      have hbrun : process_coords topo.tr b.coordinates ≠ [] := by
        intro hnil
        have hl := decode_from_length topo.tr (0, 0) b.coordinates
        rw [← process_coords_eq, hnil] at hl
        exact hbne (List.length_eq_zero.mp hl.symm)
      have := hne _ hbrun
      simpa using this
  have hrev : ∀ l : List (coordinate α), l ≠ [] →
      sliced l.reverse 0 (size_minus_one l.length) = some l.reverse.dropLast := by
    intro l hl
    have h := sliced_dropLast l.reverse (by simpa using hl)
    rwa [List.length_reverse] at h
  refine ⟨?_, ?_, ?_, sliced_dropLast _ hrun, hrev _ hrun, ?_, sliced_dropLast _ hsrun,
    hrev _ hsrun, ?_⟩
  · unfold visit_polygon
    rw [foldlM_rings (polygon_ring simplify topo) (simplified_ring_commands simplify topo)
      poly.rings (fun ring hr cont => polygon_ring_ok simplify topo cont ring
        (fun i hi => hsok i (hokp ring hr i hi)))]
    exact ⟨_, rfl⟩
  · have hmember : ∀ p ∈ multi_poly.polygons, multi_polygon_member topo p
        = some ⟨eGeomType.Polygon, (p.map (ring_commands topo)).flatten⟩ := by
      intro p hp
      unfold multi_polygon_member
      rw [foldlM_rings (multi_polygon_ring topo) (ring_commands topo) p
        (fun ring hr cont => multi_polygon_ring_ok topo cont ring (hokm p hp ring hr))]
      simp
    unfold visit_multi_polygon
    rw [mapM_some (multi_polygon_member topo)
      (fun p => ⟨eGeomType.Polygon, (p.map (ring_commands topo)).flatten⟩)
      multi_poly.polygons hmember]
    exact ⟨_, rfl⟩
  · exact size_minus_one_succ _ (by simpa using hrun)
  · exact size_minus_one_succ _ (by simpa using hsrun)
  · intro hone
    have hidx : ref_ok topo index = true := by
      unfold ref_ok
      rw [ha]
      simpa using hane
    have hplen : (process_coords topo.tr a.coordinates).length = 1 := by
      rw [process_coords_eq, decode_from_length, hone]
    have hslen : (simplify (process_coords topo.tr a.coordinates)).length = 1 := by
      have hle := (hsub (process_coords topo.tr a.coordinates)).length_le
      have hpos : (simplify (process_coords topo.tr a.coordinates)).length ≠ 0 := by
        simpa using hsrun
      omega
    have hdrop : ∀ l : List (coordinate α), l.length = 1 → l.dropLast = [] := by
      intro l hl
      apply List.eq_nil_of_length_eq_zero
      rw [List.length_dropLast, hl]
    constructor
    · rw [multi_polygon_arc_ok topo s index hidx]
      have ht : (arc_traversal topo index).length = 1 := by
        rw [arc_traversal_length topo index a ha, hone]
      rw [hdrop _ ht]
      rfl
    · rw [polygon_arc_ok simplify topo s index (hsok index hidx)]
      have ht : (simplified_traversal simplify topo index).length = 1 := by
        rw [simplified_traversal_length simplify topo index a ha, hslen]
      rw [hdrop _ ht]
      rfl

/-- C24, on a topology whose arc 1 has the single coordinate (5,5): both visitors return
a feature for rings that use it, `size - 1` is 0 without wrap-around, and the reference 1
leaves a ring that is being built unchanged. -/
theorem slices_within_bounds_witness :
    (∃ f, visit_polygon simplify_2 id example_topology_single 0 ⟨[[0, 1]], none⟩ = some f)
      ∧ (∃ f, visit_multi_polygon id example_topology_single 0 ⟨[[[0, 1]], [[-2]]], none⟩
          = some f)
      ∧ size_minus_one (process_coords example_topology_single.tr [⟨5, 5⟩]).length + 1
          = (process_coords example_topology_single.tr [⟨5, 5⟩]).length
      ∧ sliced (process_coords example_topology_single.tr [⟨5, 5⟩]) 0
            (size_minus_one (process_coords example_topology_single.tr [⟨5, 5⟩]).length)
          = some (process_coords example_topology_single.tr [⟨5, 5⟩]).dropLast
      ∧ multi_polygon_arc example_topology_single
            { first := false, cont := [command.move_to 0 0] } 1
          = some { first := false, cont := [command.move_to 0 0] }
      ∧ polygon_arc simplify_2 example_topology_single
            { first := false, cont := [command.move_to 0 0] } 1
          = some { first := false, cont := [command.move_to 0 0] } := by
  have h := slices_within_bounds simplify_2 simplify_2_sublist simplify_2_ne_nil id
    example_topology_single 0 ⟨[[0, 1]], none⟩ ⟨[[[0, 1]], [[-2]]], none⟩ 1 ⟨[⟨5, 5⟩]⟩
    { first := false, cont := [command.move_to 0 0] }
    (by decide) (by decide) (by decide) (by decide)
  exact ⟨h.1, h.2.1, h.2.2.1, h.2.2.2.1, (h.2.2.2.2.2.2.2.2 rfl).1,
    (h.2.2.2.2.2.2.2.2 rfl).2⟩

end Topojson

/-! # The claims on vertex_vector -/

namespace Mapnik

/-- C25: for every vertex_vector (the empty one included), after
`v.push_back(x, y, command)` the size has grown by exactly one, `get_vertex` at the old
size returns `command` and writes `x` and `y`, and `get_vertex` at every position below
the old size returns the same command and writes the same coordinates as before the
push; at every position above the old size it still returns `SEG_END` and writes
nothing. -/
theorem push_back_get_vertex {T : Type} (SEG_END : Nat) (v : vertex_vector T) (x y : T)
    (command : Nat) :
    (v.push_back x y command).size = v.size + 1
      ∧ (v.push_back x y command).get_vertex SEG_END v.size = (command, some (x, y))
      ∧ (∀ pos, pos < v.size →
          (v.push_back x y command).get_vertex SEG_END pos = v.get_vertex SEG_END pos)
      ∧ (∀ pos, v.size < pos →
          (v.push_back x y command).get_vertex SEG_END pos = (SEG_END, none)) := by
  refine ⟨?_, ?_, ?_, ?_⟩
  · simp [vertex_vector.size, vertex_vector.push_back]
  · simp [vertex_vector.get_vertex, vertex_vector.size, vertex_vector.push_back]
  · intro pos hpos
    unfold vertex_vector.size at hpos
    have h1 : ¬ (v.vertices_ ++ [(command, x, y)]).length ≤ pos := by
      simp only [List.length_append, List.length_singleton]
      omega
    have h2 : ¬ v.vertices_.length ≤ pos := by omega
    simp only [vertex_vector.get_vertex, vertex_vector.push_back, h1, h2, dite_false,
      List.get_eq_getElem, List.getElem_append_left hpos]
  · intro pos hpos
    unfold vertex_vector.size at hpos
    have h1 : (v.vertices_ ++ [(command, x, y)]).length ≤ pos := by
      simp only [List.length_append, List.length_singleton]
      omega
    simp only [vertex_vector.get_vertex, vertex_vector.push_back, h1, dite_true]

/-- C25, on the empty vector, to which a first vertex is pushed, and on a vector holding
one vertex, to which a second one is pushed. -/
theorem push_back_get_vertex_witness :
    ((vertex_vector.create Int).push_back 7 8 2).size = (vertex_vector.create Int).size + 1
      ∧ ((vertex_vector.create Int).push_back 7 8 2).get_vertex 0
          (vertex_vector.create Int).size = (2, some (7, 8))
      ∧ ((⟨[(1, 3, 4)]⟩ : vertex_vector Int).push_back 7 8 2).size
        = (⟨[(1, 3, 4)]⟩ : vertex_vector Int).size + 1
      ∧ ((⟨[(1, 3, 4)]⟩ : vertex_vector Int).push_back 7 8 2).get_vertex 0
          (⟨[(1, 3, 4)]⟩ : vertex_vector Int).size = (2, some (7, 8))
      ∧ ((⟨[(1, 3, 4)]⟩ : vertex_vector Int).push_back 7 8 2).get_vertex 0 0
        = (⟨[(1, 3, 4)]⟩ : vertex_vector Int).get_vertex 0 0
      ∧ ((⟨[(1, 3, 4)]⟩ : vertex_vector Int).push_back 7 8 2).get_vertex 0 0
        = (1, some (3, 4)) :=
  ⟨(push_back_get_vertex 0 (vertex_vector.create Int) 7 8 2).1,
    (push_back_get_vertex 0 (vertex_vector.create Int) 7 8 2).2.1,
    (push_back_get_vertex 0 ⟨[(1, 3, 4)]⟩ 7 8 2).1,
    (push_back_get_vertex 0 ⟨[(1, 3, 4)]⟩ 7 8 2).2.1,
    (push_back_get_vertex 0 ⟨[(1, 3, 4)]⟩ 7 8 2).2.2.1 0 (by decide),
    by decide⟩

/-- C26: `get_vertex(pos)` returns `SEG_END` and writes nothing if and only if
`pos >= v.size()` (below the size it writes the stored coordinates, whatever the stored
command is, and the outputs of a caller are then the stored coordinates); a freshly
constructed vertex_vector has size 0, so every `get_vertex` on it returns `SEG_END` and
leaves the outputs as they were. -/
theorem get_vertex_end_iff {T : Type} (SEG_END : Nat) (v : vertex_vector T) (pos : Nat)
    (old : T × T) :
    (v.get_vertex SEG_END pos = (SEG_END, none) ↔ v.size ≤ pos)
      ∧ (vertex_vector.create T).size = 0
      ∧ (vertex_vector.create T).get_vertex SEG_END pos = (SEG_END, none)
      ∧ outputs_after old ((vertex_vector.create T).get_vertex SEG_END pos).2 = old := by
  refine ⟨?_, rfl, ?_, ?_⟩
  · unfold vertex_vector.get_vertex vertex_vector.size
    by_cases h : v.vertices_.length ≤ pos
    · simp [h]
    · simp [h]
  · simp [vertex_vector.get_vertex, vertex_vector.create]
  · simp [vertex_vector.get_vertex, vertex_vector.create, outputs_after]

end Mapnik

/-! # The claims on the blur -/

namespace agg_blur

/-- C27: `blur(buf, 0, 0)` returns the image unchanged: with both radii zero neither the
horizontal nor the vertical pass is entered. -/
theorem blur_zero_radii (g_stack_blur8_mul g_stack_blur8_shr : Nat → Nat)
    (buf : agg.pixfmt) :
    blur g_stack_blur8_mul g_stack_blur8_shr buf 0 0 = buf
      ∧ ∀ x y, (blur g_stack_blur8_mul g_stack_blur8_shr buf 0 0).pix x y = buf.pix x y := by
  have h : blur g_stack_blur8_mul g_stack_blur8_shr buf 0 0 = buf := by
    simp [blur, agg._stack_blur_rgba32]
  exact ⟨h, fun x y => by rw [h]⟩

set_option maxRecDepth 100000 in
/-- C28: the call `blur(buf, 0, 255)` on an image of width 1 and height 511 (so that
w > 2 * rx and h > 2 * ry) writes the pixel (0, 256), which lies in the border
(256 is not below h - ry = 256): its value (7,7,7,7) becomes (0,0,0,0).  The vertical
pass runs its main loop from the clamped radius 254 and not from offset_y = 255, so it
writes one row more than the rows ry .. h - ry - 1.  Every sum is zero here, so the table
entries do not matter. -/
theorem blur_writes_border_row :
    example_image.width > 2 * 0
      ∧ example_image.height > 2 * 255
      ∧ ¬ (256 < example_image.height - 255)
      ∧ example_image.pix 0 256 = ⟨7, 7, 7, 7⟩
      ∧ (blur (fun _ => 259) (fun _ => 24) example_image 0 255).pix 0 256 = ⟨0, 0, 0, 0⟩ := by
  decide

end agg_blur
